import Mathlib

/-!
# Shard precreation service and diagnostic sink factories

A shallow embedding of `services/precreator/service.go` and of the sink
factories of `diagnostic/handlers.go` and `diagnostic/service.go`.

* Go pointers and interface values that may be nil are `Option` values,
  `none` being nil.
* `time.Duration` is a count of nanoseconds (`Int`); the code performs no
  arithmetic on durations.  `time.Time` is the wall clock reading of the Go
  standard library: a counter of whole seconds since January 1 of year 1, which
  is an int64, the nanoseconds within the second, and a location.  `Time.Add`
  follows the library, which saturates the seconds counter at the ends of its
  range.
* The Service, the goroutines it has started, the channel allocator and the
  record of every call the Service makes on its sink and on its collaborator
  form a `System`.  Service methods are functions on a `System`; the body of
  the goroutine is given one `select` iteration at a time.
* A run that panics, never returns, or asks for a step that no goroutine can
  take ends in `Except.error`.
-/

namespace diagnostic

/-- A context field of the structured logger, as built by `zap.String key value`. -/
structure Field where
  key : String
  value : String
deriving DecidableEq, Repr

/-- The logger `zap.Logger` as far as the factories use it: the writer it
outputs to and the context fields attached to it so far. -/
structure Logger where
  output : Nat
  context : List Field
deriving DecidableEq, Repr

/-- Method `l.With(f)`: a child logger with one more context field. -/
def Logger.With (l : Logger) (f : Field) : Logger :=
  { l with context := l.context ++ [f] }

/-- The diagnostic Service, `type Service struct` with its one field, the logger. -/
structure Service where
  l : Logger
deriving DecidableEq, Repr

/-- Constructor `New(w)`: a Service logging to the writer `w`, with no context yet. -/
def New (w : Nat) : Service :=
  { l := { output := w, context := [] } }

/-- The sink `CollectdHandler`: a struct holding its logger. -/
structure CollectdHandler where
  l : Logger
deriving DecidableEq, Repr

/-- The sink `ContinuousQuerierHandler`: a struct holding its logger. -/
structure ContinuousQuerierHandler where
  l : Logger
deriving DecidableEq, Repr

/-- The sink `GraphiteHandler`: a struct holding its logger. -/
structure GraphiteHandler where
  l : Logger
deriving DecidableEq, Repr

/-- The sink `HTTPDHandler`: a struct holding its logger. -/
structure HTTPDHandler where
  l : Logger
deriving DecidableEq, Repr

/-- The sink `MetaClientHandler`: a struct holding its logger. -/
structure MetaClientHandler where
  l : Logger
deriving DecidableEq, Repr

/-- The sink `MonitorHandler`: a struct holding its logger. -/
structure MonitorHandler where
  l : Logger
deriving DecidableEq, Repr

/-- The sink `OpenTSDBHandler`: a struct holding its logger. -/
structure OpenTSDBHandler where
  l : Logger
deriving DecidableEq, Repr

/-- The sink `PointsWriterHandler`: a struct holding its logger. -/
structure PointsWriterHandler where
  l : Logger
deriving DecidableEq, Repr

/-- The sink `PrecreatorHandler`: a struct holding its logger. -/
structure PrecreatorHandler where
  l : Logger
deriving DecidableEq, Repr

/-- The sink `QueryExecutorHandler`: a struct holding its logger. -/
structure QueryExecutorHandler where
  l : Logger
deriving DecidableEq, Repr

/-- The sink `RetentionHandler`: a struct holding its logger. -/
structure RetentionHandler where
  l : Logger
deriving DecidableEq, Repr

/-- The sink `SnapshotterHandler`: a struct holding its logger. -/
structure SnapshotterHandler where
  l : Logger
deriving DecidableEq, Repr

/-- The sink `SubscriberHandler`: a struct holding its logger. -/
structure SubscriberHandler where
  l : Logger
deriving DecidableEq, Repr

/-- The sink `UDPHandler`: a struct holding its logger. -/
structure UDPHandler where
  l : Logger
deriving DecidableEq, Repr

/-- Factory `InCollectdContext`, called on a receiver that may be nil. -/
def InCollectdContext (s : Option Service) : Option CollectdHandler :=
  match s with
  | none => none
  | some s => some { l := s.l.With ⟨"service", "collectd"⟩ }

/-- Factory `InContinuousQuerierContext`, called on a receiver that may be nil. -/
def InContinuousQuerierContext (s : Option Service) : Option ContinuousQuerierHandler :=
  match s with
  | none => none
  | some s => some { l := s.l.With ⟨"service", "continuous_querier"⟩ }

/-- Factory `InGraphiteContext`, called on a receiver that may be nil. -/
def InGraphiteContext (s : Option Service) : Option GraphiteHandler :=
  match s with
  | none => none
  | some s => some { l := s.l.With ⟨"service", "graphite"⟩ }

/-- Factory `InHTTPDContext`, called on a receiver that may be nil. -/
def InHTTPDContext (s : Option Service) : Option HTTPDHandler :=
  match s with
  | none => none
  | some s => some { l := s.l.With ⟨"service", "httpd"⟩ }

/-- Factory `InMetaClientContext`, called on a receiver that may be nil. -/
def InMetaClientContext (s : Option Service) : Option MetaClientHandler :=
  match s with
  | none => none
  | some s => some { l := s.l.With ⟨"service", "metaclient"⟩ }

/-- Factory `InMonitorContext`, called on a receiver that may be nil. -/
def InMonitorContext (s : Option Service) : Option MonitorHandler :=
  match s with
  | none => none
  | some s => some { l := s.l.With ⟨"service", "monitor"⟩ }

/-- Factory `InOpenTSDBContext`, called on a receiver that may be nil. -/
def InOpenTSDBContext (s : Option Service) : Option OpenTSDBHandler :=
  match s with
  | none => none
  | some s => some { l := s.l.With ⟨"service", "opentsdb"⟩ }

/-- Factory `InPointsWriterContext`, called on a receiver that may be nil. -/
def InPointsWriterContext (s : Option Service) : Option PointsWriterHandler :=
  match s with
  | none => none
  | some s => some { l := s.l.With ⟨"service", "write"⟩ }

/-- Factory `InPrecreatorContext`, called on a receiver that may be nil. -/
def InPrecreatorContext (s : Option Service) : Option PrecreatorHandler :=
  match s with
  | none => none
  | some s => some { l := s.l.With ⟨"service", "shard-precreation"⟩ }

/-- Factory `InQueryContext`, called on a receiver that may be nil. -/
def InQueryContext (s : Option Service) : Option QueryExecutorHandler :=
  match s with
  | none => none
  | some s => some { l := s.l.With ⟨"service", "query"⟩ }

/-- Factory `InRetentionContext`, called on a receiver that may be nil. -/
def InRetentionContext (s : Option Service) : Option RetentionHandler :=
  match s with
  | none => none
  | some s => some { l := s.l.With ⟨"service", "retention"⟩ }

/-- Factory `InSnapshotterContext`, called on a receiver that may be nil. -/
def InSnapshotterContext (s : Option Service) : Option SnapshotterHandler :=
  match s with
  | none => none
  | some s => some { l := s.l.With ⟨"service", "snapshot"⟩ }

/-- Factory `InSubscriberContext`, called on a receiver that may be nil. -/
def InSubscriberContext (s : Option Service) : Option SubscriberHandler :=
  match s with
  | none => none
  | some s => some { l := s.l.With ⟨"service", "subscriber"⟩ }

/-- Factory `InUDPContext`, called on a receiver that may be nil. -/
def InUDPContext (s : Option Service) : Option UDPHandler :=
  match s with
  | none => none
  | some s => some { l := s.l.With ⟨"service", "udp"⟩ }

/-- What it means for a factory `f`, whose handlers carry the logger `logger h`,
to be nil-safe and to tag its handlers with `tag`: on the nil receiver it
returns nil, and on a receiver `sv` it returns a handler whose logger is the
logger of `sv` extended by the field `service = tag`. -/
def NilSafeFactory {H : Type} (f : Option Service → Option H) (logger : H → Logger)
    (tag : String) : Prop :=
  ∀ s : Option Service,
    (f s = none ↔ s = none) ∧
    ∀ sv : Service, s = some sv →
      ∃ h : H, f s = some h ∧ logger h = sv.l.With ⟨"service", tag⟩ ∧
        (logger h).output = sv.l.output ∧
        (logger h).context = sv.l.context ++ [⟨"service", tag⟩]

end diagnostic

namespace precreator

/-- Type `time.Duration`: a signed count of nanoseconds. -/
abbrev Duration := Int

/-- The locations a `time.Time` is presented in, as far as the code tells them apart. -/
inductive Location
  | UTC
  | Local
deriving DecidableEq, Repr

/-- The largest int64. -/
def maxInt64 : Int := 9223372036854775807

/-- The smallest int64. -/
def minInt64 : Int := -9223372036854775808

/-- The int64 that a sum of two int64 wraps around to. -/
def wrapInt64 (x : Int) : Int :=
  (x + 9223372036854775808) % 18446744073709551616 - 9223372036854775808

/-- Type `time.Time`, wall clock reading only: `sec` is the counter of whole
seconds since January 1 of year 1, 00:00:00 UTC, an int64; `nsec` is the
nanoseconds within that second, from 0 to 999999999; `loc` is the location the
instant is presented in.  The monotonic clock reading a `time.Time` may carry
does not bear on the instant and is left out. -/
structure Time where
  sec : Int
  nsec : Int
  loc : Location
deriving DecidableEq, Repr

/-- The values a `time.Time` can take: the counter within int64, the
nanoseconds within the second. -/
def Time.Valid (t : Time) : Prop :=
  minInt64 ≤ t.sec ∧ t.sec ≤ maxInt64 ∧ 0 ≤ t.nsec ∧ t.nsec < 1000000000

/-- The instant of `t`, in nanoseconds since January 1 of year 1, 00:00:00 UTC.
This is a reading of the value for the statements, not a library function. -/
def Time.instant (t : Time) : Int :=
  t.sec * 1000000000 + t.nsec

/-- Whether the instant `d` nanoseconds after `t` has its whole seconds within
the int64 counter of `time.Time`. -/
def Time.InRange (t : Time) (d : Duration) : Prop :=
  minInt64 * 1000000000 ≤ t.instant + d ∧ t.instant + d < (maxInt64 + 1) * 1000000000

/-- The library function `addSec`: add `d` seconds to the counter; when the
int64 sum overflows, the counter is set to `1<<63 - 1`, or to `-(1<<63 - 1)` for
a negative `d`. -/
def Time.addSec (t : Time) (d : Int) : Time :=
  let sum := wrapInt64 (t.sec + d)
  if (sum > t.sec ↔ d > 0) then { t with sec := sum }
  else if d > 0 then { t with sec := maxInt64 }
  else { t with sec := -maxInt64 }

/-- Method `t.Add(d)` of the library: the duration is split into whole seconds
and a rest, both truncated towards zero, the rest is added to the nanoseconds
with a carry into the seconds, and the seconds are added by `addSec`.  The
location is kept. -/
def Time.Add (t : Time) (d : Duration) : Time :=
  let dsec := Int.tdiv d 1000000000
  let nsec := t.nsec + Int.tmod d 1000000000
  if nsec ≥ 1000000000 then
    Time.addSec { t with nsec := nsec - 1000000000 } (dsec + 1)
  else if nsec < 0 then
    Time.addSec { t with nsec := nsec + 1000000000 } (dsec - 1)
  else
    Time.addSec { t with nsec := nsec } dsec

/-- Method `t.UTC()`: the same instant, presented in UTC. -/
def Time.UTC (t : Time) : Time :=
  { t with loc := Location.UTC }

/-- Method `t.Before(u)`: whether the instant `t` is earlier than `u`. -/
def Time.Before (t u : Time) : Bool :=
  decide (t.sec < u.sec ∨ (t.sec = u.sec ∧ t.nsec < u.nsec))

/-- The constant `time.Hour`. -/
def Hour : Duration := 3600 * 1000000000

/-- Number of days from 1970-01-01 to the civil date `y-m-d` of the proleptic
Gregorian calendar. -/
def daysFromCivil (y m d : Int) : Int :=
  let y1 := if m ≤ 2 then y - 1 else y
  let era := y1 / 400
  let yoe := y1 - era * 400
  let mp := (m + 9) % 12
  let doy := (153 * mp + 2) / 5 + d - 1
  let doe := yoe * 365 + yoe / 4 - yoe / 100 + doy
  era * 146097 + doe - 719468

/-- The instant `y-m-dT00:00:00Z`, in UTC; 62135596800 is the number of seconds
from January 1 of year 1 to 1970-01-01. -/
def midnightUTC (y m d : Int) : Time :=
  { sec := daysFromCivil y m d * 86400 + 62135596800, nsec := 0, loc := Location.UTC }

/-- A non-nil `error` value. -/
structure Error where
  msg : String
deriving DecidableEq, Repr

/-- Modelled from the spec: the declaration of type Config lives in a file that
is not among the sources; these are the two duration fields that NewService
reads from it. -/
structure Config where
  CheckInterval : Duration
  AdvancePeriod : Duration
deriving DecidableEq, Repr

/-- A non-nil value of `interface Diagnostic`, identified by the sink it
refers to.  Its three methods return nothing and always return; every call
made through the interface is recorded in the trace of the System. -/
structure Diagnostic where
  sink : Nat
deriving DecidableEq, Repr

/-- A non-nil value of the `MetaClient` interface: any deterministic
implementation, given as the function from the invocations it has already
received and the arguments of the current one to the error it returns. -/
structure MetaClient where
  PrecreateShardGroups : List (Time × Time) → Time → Time → Option Error

/-- A channel `chan struct{}` on which nothing is ever sent: its identity and
whether it has been closed. -/
structure Chan where
  id : Nat
  closed : Bool
deriving DecidableEq, Repr

/-- The precreation Service, `type Service struct`; `wg` is the counter of the
WaitGroup. -/
structure Service where
  checkInterval : Duration
  advancePeriod : Duration
  Diagnostic : Option Diagnostic
  done : Option Chan
  wg : Nat
  MetaClient : Option MetaClient

/-- A call made by the Service on its sink or on its collaborator. -/
inductive Event
  | Starting (checkInterval advancedPeriod : Duration)
  | Closing
  | PrecreateError (err : Error)
  | PrecreateShardGroups (now cutoff : Time)
deriving DecidableEq, Repr

/-- The Service with its environment: `loops` counts the live goroutines
running `runPrecreation`, each of them at its `select`; `nextChan` is the
identity the next `make(chan struct{})` will return; `trace` lists every call
made so far, oldest first. -/
structure System where
  s : Service
  loops : Nat
  nextChan : Nat
  trace : List Event

/-- Why a run yields no next state. -/
inductive Stuck
  | panic
  | blocked
  | disabled
deriving DecidableEq, Repr

/-- The arguments of the collaborator invocations in a trace, oldest first. -/
def invocations : List Event → List (Time × Time)
  | [] => []
  | Event.PrecreateShardGroups now cutoff :: es => (now, cutoff) :: invocations es
  | _ :: es => invocations es

/-- The errors carried by the PrecreateError reports in a trace, oldest first. -/
def precreateErrors : List Event → List Error
  | [] => []
  | Event.PrecreateError err :: es => err :: precreateErrors es
  | _ :: es => precreateErrors es

/-- The reports made to the sink in a trace (everything but the collaborator
invocations), oldest first. -/
def reports : List Event → List Event
  | [] => []
  | Event.PrecreateShardGroups _ _ :: es => reports es
  | e :: es => e :: reports es

/-- The Starting reports in a trace. -/
def startings : List Event → List Event
  | [] => []
  | Event.Starting ci ap :: es => Event.Starting ci ap :: startings es
  | _ :: es => startings es

/-- The Closing reports in a trace. -/
def closings : List Event → List Event
  | [] => []
  | Event.Closing :: es => Event.Closing :: closings es
  | _ :: es => closings es

/-- Record one call. -/
def System.record (w : System) (e : Event) : System :=
  { w with trace := w.trace ++ [e] }

/-- Constructor `NewService(c)`: the Service and the returned error. -/
def NewService (c : Config) : Service × Option Error :=
  ({ checkInterval := c.CheckInterval
     advancePeriod := c.AdvancePeriod
     Diagnostic := none
     done := none
     wg := 0
     MetaClient := none }, none)

/-- The System right after `NewService`: no goroutine, no channel, no call. -/
def System.init (s : Service) : System :=
  { s := s, loops := 0, nextChan := 0, trace := [] }

/-- Method `s.With(d)`: attach the sink `d`, or detach the sink when `d` is nil. -/
def With (w : System) (d : Option Diagnostic) : System :=
  { w with s := { w.s with Diagnostic := d } }

/-- The assignment `s.MetaClient = mc` made by the owner of the Service. -/
def SetMetaClient (w : System) (mc : Option MetaClient) : System :=
  { w with s := { w.s with MetaClient := mc } }

/-- Method `s.Open()`: the System after the call and the returned error. -/
def Open (w : System) : System × Option Error :=
  match w.s.done with
  | some _ => (w, none)
  | none =>
    let w1 := match w.s.Diagnostic with
      | some _ => w.record (Event.Starting w.s.checkInterval w.s.advancePeriod)
      | none => w
    let w2 := { w1 with s := { w1.s with done := some { id := w1.nextChan, closed := false } }
                        nextChan := w1.nextChan + 1 }
    let w3 := { w2 with s := { w2.s with wg := w2.s.wg + 1 } }
    let w4 := { w3 with loops := w3.loops + 1 }
    (w4, none)

/-- Method `s.precreate(now)`: the cutoff is computed, then the collaborator is
called, which panics when the collaborator is nil. -/
def precreate (w : System) (now : Time) : Except Stuck (System × Option Error) :=
  let cutoff := (now.Add w.s.advancePeriod).UTC
  match w.s.MetaClient with
  | none => Except.error Stuck.panic
  | some mc =>
    let w1 := w.record (Event.PrecreateShardGroups now cutoff)
    match mc.PrecreateShardGroups (invocations w.trace) now cutoff with
    | some err => Except.ok (w1, some err)
    | none => Except.ok (w1, none)

/-- The branch `case <-time.After(s.checkInterval)` of `runPrecreation`;
`clock` is the reading of `time.Now()`. -/
def tickBranch (w : System) (clock : Time) : Except Stuck System :=
  match precreate w clock.UTC with
  | Except.error f => Except.error f
  | Except.ok (w1, some err) =>
    match w1.s.Diagnostic with
    | some _ => Except.ok (w1.record (Event.PrecreateError err))
    | none => Except.ok w1
  | Except.ok (w1, none) => Except.ok w1

/-- The branch `case <-s.done` of `runPrecreation`, the `return` and the
deferred `s.wg.Done()`, which panics on a counter that is already zero. -/
def doneBranch (w : System) : Except Stuck System :=
  let w1 := match w.s.Diagnostic with
    | some _ => w.record Event.Closing
    | none => w
  match w1.s.wg with
  | 0 => Except.error Stuck.panic
  | n + 1 => Except.ok { w1 with s := { w1.s with wg := n }, loops := w1.loops - 1 }

/-- The branch a goroutine takes at its `select`. -/
inductive Branch
  | timer (clock : Time)
  | cancelled
deriving DecidableEq, Repr

/-- One iteration of the `for` of `runPrecreation` by one live goroutine.  The
timer branch can always be taken in the end; the receive from `s.done` can be
taken only once that channel is closed (a receive from an open or from a nil
channel blocks). -/
def runPrecreation (w : System) (b : Branch) : Except Stuck System :=
  if w.loops = 0 then Except.error Stuck.disabled
  else
    match b with
    | Branch.timer clock => tickBranch w clock
    | Branch.cancelled =>
      match w.s.done with
      | some c => if c.closed then doneBranch w else Except.error Stuck.disabled
      | none => Except.error Stuck.disabled

/-- The call `s.wg.Wait()` entered with counter `n`: it returns once the counter is
zero; until then the goroutines observe the closed channel and leave, and when
none is left to call `Done` the wait never returns. -/
def waitLoops : Nat → System → Except Stuck System
  | 0, w => Except.ok w
  | n + 1, w =>
    match runPrecreation w Branch.cancelled with
    | Except.ok w1 => waitLoops n w1
    | Except.error Stuck.disabled => Except.error Stuck.blocked
    | Except.error f => Except.error f

/-- Method `s.Close()`, called while the goroutine is at its `select`; closing a
channel that is already closed panics. -/
def Close (w : System) : Except Stuck (System × Option Error) :=
  match w.s.done with
  | none => Except.ok (w, none)
  | some c =>
    if c.closed then Except.error Stuck.panic
    else
      let w1 := { w with s := { w.s with done := some { c with closed := true } } }
      match waitLoops w1.s.wg w1 with
      | Except.error f => Except.error f
      | Except.ok w2 => Except.ok ({ w2 with s := { w2.s with done := none } }, none)

/-- The steps of a serialized run of one Service. -/
inductive Op
  | With (d : Option Diagnostic)
  | SetMetaClient (mc : Option MetaClient)
  | Open
  | Close
  | tick (clock : Time)

/-- One step: the next System and the error the call returned (a tick and the
two assignments return nothing). -/
def step (w : System) : Op → Except Stuck (System × Option Error)
  | Op.With d => Except.ok (With w d, none)
  | Op.SetMetaClient mc => Except.ok (SetMetaClient w mc, none)
  | Op.Open => Except.ok (Open w)
  | Op.Close => Close w
  | Op.tick clock =>
    match runPrecreation w (Branch.timer clock) with
    | Except.ok w1 => Except.ok (w1, none)
    | Except.error f => Except.error f

/-- A run: the final System and the returned errors, in order. -/
def exec (w : System) : List Op → Except Stuck (System × List (Option Error))
  | [] => Except.ok (w, [])
  | op :: ops =>
    match step w op with
    | Except.error f => Except.error f
    | Except.ok (w1, r) =>
      match exec w1 ops with
      | Except.error f => Except.error f
      | Except.ok (w2, rs) => Except.ok (w2, r :: rs)

/-- The Systems a Service built by `NewService c` can be in. -/
inductive Reachable (c : Config) : System → Prop
  | init : Reachable c (System.init (NewService c).1)
  | step (w w1 : System) (op : Op) (r : Option Error) :
      Reachable c w → step w op = Except.ok (w1, r) → Reachable c w1

/-- The lifecycle invariant: the WaitGroup counter is the number of live
goroutines; a Service without a signal has none, and a Service with a signal
has exactly one, its signal being open and allocated in the past. -/
def Inv (w : System) : Prop :=
  w.s.wg = w.loops ∧
  match w.s.done with
  | none => w.loops = 0
  | some ch => w.loops = 1 ∧ ch.closed = false ∧ ch.id < w.nextChan

/-- A sequence of ticks, one per clock reading. -/
def runTicks (w : System) : List Time → Except Stuck System
  | [] => Except.ok w
  | clock :: clocks =>
    match runPrecreation w (Branch.timer clock) with
    | Except.ok w1 => runTicks w1 clocks
    | Except.error f => Except.error f

/-- What the collaborator `mc` returns at each tick of a sequence, `hist`
being the invocations it has received before the first of them. -/
def tickResults (mc : MetaClient) (advancePeriod : Duration) (hist : List (Time × Time)) :
    List Time → List (Option Error)
  | [] => []
  | clock :: clocks =>
    mc.PrecreateShardGroups hist clock.UTC (clock.UTC.Add advancePeriod).UTC ::
      tickResults mc advancePeriod (hist ++ [(clock.UTC, (clock.UTC.Add advancePeriod).UTC)]) clocks

/-- The calls of one tick at which the collaborator returns `r`: the invocation,
followed by a PrecreateError exactly when `r` is an error. -/
def tickCalls (advancePeriod : Duration) (clock : Time) (r : Option Error) : List Event :=
  Event.PrecreateShardGroups clock.UTC (clock.UTC.Add advancePeriod).UTC ::
    (match r with
     | some err => [Event.PrecreateError err]
     | none => [])

/-- The calls of a sequence of ticks with the given results. -/
def ticksCalls (advancePeriod : Duration) : List Time → List (Option Error) → List Event
  | clock :: clocks, r :: rs => tickCalls advancePeriod clock r ++ ticksCalls advancePeriod clocks rs
  | _, _ => []

/-- The errors among the results of a sequence of ticks, in order. -/
def failures : List (Option Error) → List Error
  | [] => []
  | some err :: rs => err :: failures rs
  | none :: rs => failures rs

/-- One `Open` followed by one `Close`. -/
def openClose (w : System) : Except Stuck System :=
  match Close (Open w).1 with
  | Except.ok (w1, _) => Except.ok w1
  | Except.error f => Except.error f

/-- Any number `n` of cycles of `Open` and `Close`. -/
def cycles : Nat → System → Except Stuck System
  | 0, w => Except.ok w
  | n + 1, w =>
    match openClose w with
    | Except.ok w1 => cycles n w1
    | Except.error f => Except.error f

/-- The calls of `n` cycles of `Open` and `Close` with a sink attached. -/
def cyclesCalls (checkInterval advancePeriod : Duration) : Nat → List Event
  | 0 => []
  | n + 1 => Event.Starting checkInterval advancePeriod :: Event.Closing ::
      cyclesCalls checkInterval advancePeriod n

/-- Two Systems that agree on everything but the sink and the reports made to
it: same configuration, same signal, same counter, same collaborator, same
goroutines, same allocator, same collaborator invocations. -/
def SameButSink (w1 w2 : System) : Prop :=
  w1.s.checkInterval = w2.s.checkInterval ∧
  w1.s.advancePeriod = w2.s.advancePeriod ∧
  w1.s.done = w2.s.done ∧
  w1.s.wg = w2.s.wg ∧
  w1.s.MetaClient = w2.s.MetaClient ∧
  w1.loops = w2.loops ∧
  w1.nextChan = w2.nextChan ∧
  invocations w1.trace = invocations w2.trace

/-- The reports that reach the sink `d`: all of them when a sink is attached,
none when it is nil. -/
def sinkCalls (d : Option Diagnostic) (es : List Event) : List Event :=
  match d with
  | some _ => es
  | none => []

/-- A collaborator that fails at its second invocation and at no other. -/
def failsSecond : MetaClient :=
  ⟨fun hist _ _ => if hist.length = 1 then some ⟨"unavailable"⟩ else none⟩

/-- A collaborator that never fails. -/
def neverFails : MetaClient :=
  ⟨fun _ _ _ => none⟩

/-- A check interval of one hour and an advance period of 24 hours. -/
def exampleConfig : Config :=
  ⟨Hour, 24 * Hour⟩

/-- A Service built from `exampleConfig`, given the sink `d` and the
collaborator `mc`, not opened yet. -/
def stoppedExample (d : Option Diagnostic) (mc : MetaClient) : System :=
  SetMetaClient (With (System.init (NewService exampleConfig).1) d) (some mc)

/-- The same Service after `Open`. -/
def runningExample (d : Option Diagnostic) (mc : MetaClient) : System :=
  (Open (stoppedExample d mc)).1

/-- The collaborator invocations of a trace, the reports left out. -/
def calls : List Event → List Event
  | [] => []
  | Event.PrecreateShardGroups now cutoff :: es => Event.PrecreateShardGroups now cutoff :: calls es
  | _ :: es => calls es

/-- The System with its sink detached and the reports made so far left out. -/
def withoutSink (w : System) : System :=
  { w with s := { w.s with Diagnostic := none }, trace := calls w.trace }

/-- The first part of `s.Close()`: the guard on `s.done` and `close(s.done)`.
On a nil signal `Close` returns at once and nothing changes; closing a channel
that is already closed panics. -/
def closeSignal (w : System) : Except Stuck System :=
  match w.s.done with
  | none => Except.ok w
  | some ch =>
    if ch.closed then Except.error Stuck.panic
    else Except.ok { w with s := { w.s with done := some { ch with closed := true } } }

/-- The last part of `s.Close()`, after the signal has been closed:
`s.wg.Wait()` returns, which it can do only at counter zero, then `s.done = nil`
and `Close` returns. -/
def closeReturn (w : System) : Except Stuck System :=
  match w.s.done with
  | none => Except.error Stuck.disabled
  | some ch =>
    if ch.closed then
      if w.s.wg = 0 then Except.ok { w with s := { w.s with done := none } }
      else Except.error Stuck.disabled
    else Except.error Stuck.disabled

/-- The steps of a run seen one at a time: the call of `Open`, an iteration of
the loop through its timer branch, the closing of the signal by `Close`, the
iteration of the loop that receives from the closed signal, and the return of
`Close`. -/
inductive Act
  | Open
  | tick (clock : Time)
  | closeSignal
  | cancelled
  | closeReturn
deriving DecidableEq, Repr

/-- The step relation, as a function: the next System, or why there is none. -/
def act (w : System) : Act → Except Stuck System
  | Act.Open => Except.ok (Open w).1
  | Act.tick clock => runPrecreation w (Branch.timer clock)
  | Act.closeSignal => closeSignal w
  | Act.cancelled => runPrecreation w Branch.cancelled
  | Act.closeReturn => closeReturn w

/-- A sequence of steps. -/
def runActs (w : System) : List Act → Except Stuck System
  | [] => Except.ok w
  | a :: acts =>
    match act w a with
    | Except.ok w1 => runActs w1 acts
    | Except.error f => Except.error f

/-- The clock readings of the ticks of a sequence of steps, in order. -/
def tickClocks : List Act → List Time
  | [] => []
  | Act.tick clock :: acts => clock :: tickClocks acts
  | _ :: acts => tickClocks acts

/-- The calls of one run of a Service with a sink: Starting, the calls of its
ticks, and Closing once the loop has left. -/
def runCalls (checkInterval advancePeriod : Duration) (clocks : List Time)
    (rs : List (Option Error)) (loops : Nat) : List Event :=
  Event.Starting checkInterval advancePeriod ::
    (ticksCalls advancePeriod clocks rs ++ if loops = 0 then [Event.Closing] else [])

/-- The steps that do not attach or detach a sink. -/
def Op.keepsSink : Op → Bool
  | Op.With _ => false
  | _ => true

end precreator

namespace diagnostic

/-- C10. Every sink factory is nil-safe: it returns nil exactly on the nil
receiver, and on a receiver `sv` it returns a handler whose logger is the logger
of `sv` with the field `service` set to the name of the owning component
(`shard-precreation` for the precreator). -/
theorem factories_nil_safe :
    NilSafeFactory InPrecreatorContext PrecreatorHandler.l "shard-precreation" ∧
    NilSafeFactory InCollectdContext CollectdHandler.l "collectd" ∧
    NilSafeFactory InContinuousQuerierContext ContinuousQuerierHandler.l "continuous_querier" ∧
    NilSafeFactory InGraphiteContext GraphiteHandler.l "graphite" ∧
    NilSafeFactory InHTTPDContext HTTPDHandler.l "httpd" ∧
    NilSafeFactory InMetaClientContext MetaClientHandler.l "metaclient" ∧
    NilSafeFactory InMonitorContext MonitorHandler.l "monitor" ∧
    NilSafeFactory InOpenTSDBContext OpenTSDBHandler.l "opentsdb" ∧
    NilSafeFactory InPointsWriterContext PointsWriterHandler.l "write" ∧
    NilSafeFactory InQueryContext QueryExecutorHandler.l "query" ∧
    NilSafeFactory InRetentionContext RetentionHandler.l "retention" ∧
    NilSafeFactory InSnapshotterContext SnapshotterHandler.l "snapshot" ∧
    NilSafeFactory InSubscriberContext SubscriberHandler.l "subscriber" ∧
    NilSafeFactory InUDPContext UDPHandler.l "udp" := by
  refine ⟨?_, ?_, ?_, ?_, ?_, ?_, ?_, ?_, ?_, ?_, ?_, ?_, ?_, ?_⟩ <;>
    intro s <;> cases s <;>
    simp [InPrecreatorContext, InCollectdContext, InContinuousQuerierContext,
      InGraphiteContext, InHTTPDContext, InMetaClientContext, InMonitorContext,
      InOpenTSDBContext, InPointsWriterContext, InQueryContext, InRetentionContext,
      InSnapshotterContext, InSubscriberContext, InUDPContext, Logger.With]

end diagnostic

namespace precreator

/-- C1, as stated, fails: the Config with checkInterval 0 and advancePeriod -1
is invalid on both counts, and NewService returns a nil error for it. -/
theorem NewService_invalid_config_nil_error :
    ((⟨0, -1⟩ : Config).CheckInterval ≤ 0 ∧ (⟨0, -1⟩ : Config).AdvancePeriod < 0) ∧
    (NewService ⟨0, -1⟩).2 = none := by
  decide

/-- C1, amended. NewService validates nothing: for every Config it returns a nil
error and a Stopped Service (no cancellation signal, zero WaitGroup counter, no
sink, no collaborator) whose checkInterval and advancePeriod are the values of
the Config. -/
theorem NewService_never_fails (c : Config) :
    (NewService c).2 = none ∧
    (NewService c).1.checkInterval = c.CheckInterval ∧
    (NewService c).1.advancePeriod = c.AdvancePeriod ∧
    (NewService c).1.done = none ∧
    (NewService c).1.wg = 0 ∧
    (NewService c).1.Diagnostic = none ∧
    (NewService c).1.MetaClient = none := by
  simp [NewService]

theorem invocations_append (xs ys : List Event) :
    invocations (xs ++ ys) = invocations xs ++ invocations ys := by
  induction xs with
  | nil => rfl
  | cons e es ih => cases e <;> simp [invocations, ih]

theorem precreateErrors_append (xs ys : List Event) :
    precreateErrors (xs ++ ys) = precreateErrors xs ++ precreateErrors ys := by
  induction xs with
  | nil => rfl
  | cons e es ih => cases e <;> simp [precreateErrors, ih]

theorem reports_append (xs ys : List Event) :
    reports (xs ++ ys) = reports xs ++ reports ys := by
  induction xs with
  | nil => rfl
  | cons e es ih => cases e <;> simp [reports, ih]

theorem startings_append (xs ys : List Event) :
    startings (xs ++ ys) = startings xs ++ startings ys := by
  induction xs with
  | nil => rfl
  | cons e es ih => cases e <;> simp [startings, ih]

theorem closings_append (xs ys : List Event) :
    closings (xs ++ ys) = closings xs ++ closings ys := by
  induction xs with
  | nil => rfl
  | cons e es ih => cases e <;> simp [closings, ih]

/-- What `precreate` does when a collaborator is attached. -/
theorem precreate_some (w : System) (mc : MetaClient) (now : Time)
    (h : w.s.MetaClient = some mc) :
    precreate w now =
      Except.ok (w.record (Event.PrecreateShardGroups now (now.Add w.s.advancePeriod).UTC),
        mc.PrecreateShardGroups (invocations w.trace) now (now.Add w.s.advancePeriod).UTC) := by
  unfold precreate
  simp only [h]
  cases mc.PrecreateShardGroups (invocations w.trace) now (now.Add w.s.advancePeriod).UTC <;> rfl

/-- The parts a duration is split into by `Time.Add`. -/
theorem split_duration (d : Int) :
    1000000000 * Int.tdiv d 1000000000 + Int.tmod d 1000000000 = d ∧
    -1000000000 < Int.tmod d 1000000000 ∧ Int.tmod d 1000000000 < 1000000000 ∧
    (0 ≤ d → 0 ≤ Int.tmod d 1000000000) := by
  refine ⟨Int.tdiv_add_tmod d 1000000000, ?_, Int.tmod_lt_of_pos d (by decide),
    fun h => Int.tmod_nonneg _ h⟩
  rcases Int.le_total 0 d with h | h
  · have := Int.tmod_nonneg 1000000000 h
    omega
  · have h2 := Int.tmod_lt_of_pos (-d) (show (0 : Int) < 1000000000 by decide)
    have h3 := Int.tdiv_add_tmod (-d) 1000000000
    have h4 := Int.tdiv_add_tmod d 1000000000
    rw [Int.neg_tdiv] at h3
    omega

/-- An int64 sum that does not overflow is the sum. -/
theorem wrapInt64_of_range (x : Int) (h1 : minInt64 ≤ x) (h2 : x ≤ maxInt64) :
    wrapInt64 x = x := by
  simp only [wrapInt64, minInt64, maxInt64] at *
  omega

/-- As long as the counter stays within int64, `addSec` adds. -/
theorem Time.addSec_exact (t : Time) (d : Int) (h1 : minInt64 ≤ t.sec + d)
    (h2 : t.sec + d ≤ maxInt64) : t.addSec d = { t with sec := t.sec + d } := by
  unfold Time.addSec
  simp only [wrapInt64_of_range _ h1 h2]
  have hc : (t.sec + d > t.sec ↔ d > 0) := by
    constructor <;> intro h <;> omega
  rw [if_pos hc]

/-- Within the range of `time.Time`, `Time.Add` is exact: the instant of the
result is the instant of `t` plus `d`, and the result is again a value of
`time.Time`, in the location of `t`. -/
theorem Time.Add_exact (t : Time) (d : Int) (hv : t.Valid) (hr : t.InRange d) :
    (t.Add d).instant = t.instant + d ∧ (t.Add d).Valid ∧ (t.Add d).loc = t.loc := by
  obtain ⟨s1, s2, s3, _⟩ := split_duration d
  obtain ⟨v1, v2, v3, v4⟩ := hv
  obtain ⟨r1, r2⟩ := hr
  simp only [Time.instant, minInt64, maxInt64] at r1 r2
  unfold Time.Add
  generalize Int.tdiv d 1000000000 = q at *
  generalize Int.tmod d 1000000000 = r at *
  simp only
  split_ifs with c1 c2
  · rw [Time.addSec_exact _ _ (by simp only [minInt64]; omega) (by simp only [maxInt64]; omega)]
    simp only [Time.instant, Time.Valid, minInt64, maxInt64]
    refine ⟨by omega, ⟨by omega, by omega, by omega, by omega⟩, trivial⟩
  · rw [Time.addSec_exact _ _ (by simp only [minInt64]; omega) (by simp only [maxInt64]; omega)]
    simp only [Time.instant, Time.Valid, minInt64, maxInt64]
    refine ⟨by omega, ⟨by omega, by omega, by omega, by omega⟩, trivial⟩
  · rw [Time.addSec_exact _ _ (by simp only [minInt64]; omega) (by simp only [maxInt64]; omega)]
    simp only [Time.instant, Time.Valid, minInt64, maxInt64]
    refine ⟨by omega, ⟨by omega, by omega, by omega, by omega⟩, trivial⟩

/-- C2, as stated, fails at the end of the range of `time.Time`.  At the instant
whose seconds counter is the largest int64, with an advancePeriod of 24h, the
cutoff passed to the collaborator is `now` itself, not `now + 24h`; and at the
last nanosecond of that second, with an advancePeriod of one nanosecond, the
cutoff passed is before `now`. -/
theorem precreate_cutoff_saturates :
    (precreate (stoppedExample none neverFails) ⟨maxInt64, 0, Location.UTC⟩).map
        (fun p => invocations p.1.trace) =
      Except.ok [(⟨maxInt64, 0, Location.UTC⟩, ⟨maxInt64, 0, Location.UTC⟩)] ∧
    (stoppedExample none neverFails).s.advancePeriod = 24 * Hour ∧
    (⟨maxInt64, 0, Location.UTC⟩ : Time).instant ≠
      (⟨maxInt64, 0, Location.UTC⟩ : Time).instant + 24 * Hour ∧
    (precreate (SetMetaClient (System.init (NewService ⟨Hour, 1⟩).1) (some neverFails))
        ⟨maxInt64, 999999999, Location.UTC⟩).map (fun p => invocations p.1.trace) =
      Except.ok [(⟨maxInt64, 999999999, Location.UTC⟩, ⟨maxInt64, 0, Location.UTC⟩)] ∧
    Time.Before ⟨maxInt64, 0, Location.UTC⟩ ⟨maxInt64, 999999999, Location.UTC⟩ = true :=
  ⟨rfl, rfl, by decide, rfl, by decide⟩

/-- C2, amended. With a collaborator `mc` attached, `precreate now` returns,
having invoked `mc.PrecreateShardGroups` exactly once, with first argument `now`
and second argument `now.Add(advancePeriod)` in UTC; it returns what the
collaborator returned and leaves the Service alone.  Whenever the instant
`now + advancePeriod` is within the range of `time.Time`, the cutoff is exactly
that instant, and then for advancePeriod >= 0 it is not before `now`.  From
2024-01-01T00:00:00Z an advancePeriod of 24h gives the cutoff
2024-01-02T00:00:00Z. -/
theorem precreate_invokes_once (w : System) (mc : MetaClient) (now : Time)
    (h : w.s.MetaClient = some mc) :
    (∃ w1 : System,
      precreate w now = Except.ok (w1,
        mc.PrecreateShardGroups (invocations w.trace) now (now.Add w.s.advancePeriod).UTC) ∧
      w1.trace = w.trace ++
        [Event.PrecreateShardGroups now (now.Add w.s.advancePeriod).UTC] ∧
      invocations w1.trace = invocations w.trace ++
        [(now, (now.Add w.s.advancePeriod).UTC)] ∧
      reports w1.trace = reports w.trace ∧
      w1.s = w.s ∧ w1.loops = w.loops ∧ w1.nextChan = w.nextChan) ∧
    (now.Valid → now.InRange w.s.advancePeriod →
      ((now.Add w.s.advancePeriod).UTC).instant = now.instant + w.s.advancePeriod ∧
      ((now.Add w.s.advancePeriod).UTC).loc = Location.UTC ∧
      ((now.Add w.s.advancePeriod).UTC).Valid ∧
      (0 ≤ w.s.advancePeriod → ((now.Add w.s.advancePeriod).UTC).Before now = false)) ∧
    (w.s.advancePeriod = 24 * Hour → now = midnightUTC 2024 1 1 →
      ∃ w1 r, precreate w now = Except.ok (w1, r) ∧
        invocations w1.trace = invocations w.trace ++
          [(midnightUTC 2024 1 1, midnightUTC 2024 1 2)]) := by
  have key := precreate_some w mc now h
  refine ⟨⟨_, key, rfl, ?_, ?_, rfl, rfl, rfl⟩, ?_, ?_⟩
  · simp [System.record, invocations_append, invocations]
  · simp [System.record, reports_append, reports]
  · intro hv hr
    obtain ⟨e1, e2, _⟩ := Time.Add_exact now w.s.advancePeriod hv hr
    refine ⟨e1, rfl, e2, ?_⟩
    intro hap
    have hap1 : (0 : Int) ≤ w.s.advancePeriod := hap
    obtain ⟨_, _, v3, v4⟩ := hv
    obtain ⟨_, _, u3, u4⟩ := e2
    simp only [Time.instant] at e1
    simp only [Time.UTC, Time.Before, decide_eq_false_iff_not]
    omega
  · intro hap hnow
    refine ⟨_, _, key, ?_⟩
    have hcut : ((midnightUTC 2024 1 1).Add (24 * Hour)).UTC = midnightUTC 2024 1 2 := by
      decide
    subst hnow
    simp only [System.record, invocations_append, invocations, hap, hcut]

/-- C2, amended, at a concrete Service: advancePeriod 24h, a collaborator that
never fails, called at 2024-01-01T00:00:00Z. -/
theorem precreate_invokes_once_witness :
    ∃ w1 r, precreate
        (SetMetaClient (System.init (NewService ⟨Hour, 24 * Hour⟩).1)
          (some ⟨fun _ _ _ => none⟩)) (midnightUTC 2024 1 1) = Except.ok (w1, r) ∧
      invocations w1.trace = [(midnightUTC 2024 1 1, midnightUTC 2024 1 2)] :=
  (precreate_invokes_once
    (SetMetaClient (System.init (NewService ⟨Hour, 24 * Hour⟩).1) (some ⟨fun _ _ _ => none⟩))
    ⟨fun _ _ _ => none⟩ (midnightUTC 2024 1 1) rfl).2.2 rfl rfl

end precreator

namespace precreator

theorem midnightUTC_2024_01_01 :
    midnightUTC 1970 1 1 = ⟨62135596800, 0, Location.UTC⟩ ∧
    midnightUTC 2024 1 1 = ⟨62135596800 + 1704067200, 0, Location.UTC⟩ ∧
    midnightUTC 2024 1 2 = ⟨62135596800 + 1704153600, 0, Location.UTC⟩ := by
  decide

/-- One tick of a live goroutine with a sink and a collaborator attached. -/
theorem tick_with_sink (w : System) (d : Diagnostic) (mc : MetaClient) (clock : Time)
    (hl : w.loops ≠ 0) (hd : w.s.Diagnostic = some d) (hm : w.s.MetaClient = some mc) :
    runPrecreation w (Branch.timer clock) =
      Except.ok
        { w with
          trace := w.trace ++ tickCalls w.s.advancePeriod clock
            (mc.PrecreateShardGroups (invocations w.trace) clock.UTC
              (clock.UTC.Add w.s.advancePeriod).UTC) } := by
  unfold runPrecreation
  rw [if_neg hl]
  simp only [tickBranch]
  rw [precreate_some w mc _ hm]
  cases mc.PrecreateShardGroups (invocations w.trace) clock.UTC
      (clock.UTC.Add w.s.advancePeriod).UTC <;>
    simp [System.record, hd, tickCalls]

/-- One tick of a live goroutine with a collaborator and no sink. -/
theorem tick_without_sink (w : System) (mc : MetaClient) (clock : Time)
    (hl : w.loops ≠ 0) (hd : w.s.Diagnostic = none) (hm : w.s.MetaClient = some mc) :
    runPrecreation w (Branch.timer clock) =
      Except.ok
        { w with
          trace := w.trace ++
            [Event.PrecreateShardGroups clock.UTC (clock.UTC.Add w.s.advancePeriod).UTC] } := by
  unfold runPrecreation
  rw [if_neg hl]
  simp only [tickBranch]
  rw [precreate_some w mc _ hm]
  cases mc.PrecreateShardGroups (invocations w.trace) clock.UTC
      (clock.UTC.Add w.s.advancePeriod).UTC <;>
    simp [System.record, hd]

theorem invocations_tickCalls (ap : Duration) (clock : Time) (r : Option Error) :
    invocations (tickCalls ap clock r) = [(clock.UTC, (clock.UTC.Add ap).UTC)] := by
  cases r <;> simp [tickCalls, invocations]

theorem precreateErrors_tickCalls (ap : Duration) (clock : Time) (r : Option Error) :
    precreateErrors (tickCalls ap clock r) = failures [r] := by
  cases r <;> simp [tickCalls, precreateErrors, failures]

theorem closings_tickCalls (ap : Duration) (clock : Time) (r : Option Error) :
    closings (tickCalls ap clock r) = [] := by
  cases r <;> simp [tickCalls, closings]

theorem startings_tickCalls (ap : Duration) (clock : Time) (r : Option Error) :
    startings (tickCalls ap clock r) = [] := by
  cases r <;> simp [tickCalls, startings]

theorem failures_cons (r : Option Error) (rs : List (Option Error)) :
    failures (r :: rs) = failures [r] ++ failures rs := by
  cases r <;> simp [failures]

theorem tickResults_length (mc : MetaClient) (ap : Duration) (clocks : List Time) :
    ∀ hist, (tickResults mc ap hist clocks).length = clocks.length := by
  induction clocks with
  | nil => intro hist; rfl
  | cons c cs ih => intro hist; simp [tickResults, ih]

/-- A sequence of ticks of a live goroutine with a sink and a collaborator
attached: it runs to the end, touches nothing but the trace, and appends the
calls of its ticks. -/
theorem runTicks_with_sink (d : Diagnostic) (mc : MetaClient) (clocks : List Time) :
    ∀ w : System, w.loops ≠ 0 → w.s.Diagnostic = some d → w.s.MetaClient = some mc →
      runTicks w clocks = Except.ok
        { w with
          trace := w.trace ++ ticksCalls w.s.advancePeriod clocks
            (tickResults mc w.s.advancePeriod (invocations w.trace) clocks) } := by
  induction clocks with
  | nil => intro w _ _ _; simp [runTicks, ticksCalls]
  | cons c cs ih =>
    intro w hl hd hm
    simp only [runTicks]
    rw [tick_with_sink w d mc c hl hd hm]
    simp only
    refine (ih _ ?_ ?_ ?_).trans ?_
    · exact hl
    · exact hd
    · exact hm
    · simp [ticksCalls, tickResults, invocations_append, invocations_tickCalls]

theorem ticksCalls_facts (ap : Duration) (clocks : List Time) :
    ∀ rs : List (Option Error), rs.length = clocks.length →
      invocations (ticksCalls ap clocks rs) =
        clocks.map (fun clock => (clock.UTC, (clock.UTC.Add ap).UTC)) ∧
      precreateErrors (ticksCalls ap clocks rs) = failures rs ∧
      closings (ticksCalls ap clocks rs) = [] ∧
      startings (ticksCalls ap clocks rs) = [] := by
  induction clocks with
  | nil => intro rs h; cases rs <;> simp_all [ticksCalls, invocations, precreateErrors, failures, closings, startings]
  | cons c cs ih =>
    intro rs h
    cases rs with
    | nil => simp at h
    | cons r rs =>
      have h1 : rs.length = cs.length := by simpa using h
      obtain ⟨i1, i2, i3, i4⟩ := ih rs h1
      refine ⟨?_, ?_, ?_, ?_⟩
      · simp [ticksCalls, invocations_append, invocations_tickCalls, i1]
      · rw [failures_cons]
        simp [ticksCalls, precreateErrors_append, precreateErrors_tickCalls, i2]
      · simp [ticksCalls, closings_append, closings_tickCalls, i3]
      · simp [ticksCalls, startings_append, startings_tickCalls, i4]

end precreator

namespace precreator

/-- C3. On a Running Service (signal allocated, loop live) with a sink and a
collaborator attached, any finite sequence of ticks runs to the end whatever
the collaborator returns: each tick invokes the collaborator exactly once, a
tick reports a PrecreateError exactly when its invocation failed, carrying the
error of that invocation, no tick reports Closing, and afterwards the signal is
still allocated and the loop still live. -/
theorem ticks_survive_collaborator_failures (w : System) (ch : Chan) (d : Diagnostic)
    (mc : MetaClient) (clocks : List Time) (hrun : w.s.done = some ch) (hl : w.loops ≠ 0)
    (hd : w.s.Diagnostic = some d) (hm : w.s.MetaClient = some mc) :
    ∃ w1 : System, runTicks w clocks = Except.ok w1 ∧
      w1.trace = w.trace ++ ticksCalls w.s.advancePeriod clocks
        (tickResults mc w.s.advancePeriod (invocations w.trace) clocks) ∧
      invocations w1.trace = invocations w.trace ++
        clocks.map (fun clock => (clock.UTC, (clock.UTC.Add w.s.advancePeriod).UTC)) ∧
      (invocations w1.trace).length = (invocations w.trace).length + clocks.length ∧
      precreateErrors w1.trace = precreateErrors w.trace ++
        failures (tickResults mc w.s.advancePeriod (invocations w.trace) clocks) ∧
      (precreateErrors w1.trace).length = (precreateErrors w.trace).length +
        (failures (tickResults mc w.s.advancePeriod (invocations w.trace) clocks)).length ∧
      closings w1.trace = closings w.trace ∧
      w1.s.done = some ch ∧ w1.loops = w.loops ∧ w1.s.wg = w.s.wg ∧
      w1.s.Diagnostic = some d ∧ w1.s.MetaClient = some mc := by
  have hlen := tickResults_length mc w.s.advancePeriod clocks (invocations w.trace)
  obtain ⟨f1, f2, f3, _⟩ := ticksCalls_facts w.s.advancePeriod clocks _ hlen
  refine ⟨_, runTicks_with_sink d mc clocks w hl hd hm, rfl, ?_, ?_, ?_, ?_, ?_,
    hrun, rfl, rfl, hd, hm⟩
  · simp only [invocations_append, f1]
  · simp only [invocations_append, f1, List.length_append, List.length_map]
  · simp only [precreateErrors_append, f2]
  · simp only [precreateErrors_append, f2, List.length_append]
  · simp only [closings_append, f3, List.append_nil]

/-- C3 at three ticks, the second of which fails: three invocations, exactly
one PrecreateError, and the Service still Running. -/
theorem ticks_survive_collaborator_failures_witness :
    ∃ w1 : System,
      runTicks (runningExample (some ⟨1⟩) failsSecond)
        [⟨100, 0, Location.Local⟩, ⟨200, 0, Location.Local⟩, ⟨300, 0, Location.Local⟩] = Except.ok w1 ∧
      (invocations w1.trace).length = 3 ∧
      precreateErrors w1.trace = [⟨"unavailable"⟩] ∧
      w1.s.done = some ⟨0, false⟩ ∧ w1.loops = 1 := by
  obtain ⟨w1, h1, _, _, h4, h5, _, _, h8, h9, _, _, _⟩ :=
    ticks_survive_collaborator_failures (runningExample (some ⟨1⟩) failsSecond) ⟨0, false⟩ ⟨1⟩
      failsSecond [⟨100, 0, Location.Local⟩, ⟨200, 0, Location.Local⟩, ⟨300, 0, Location.Local⟩]
      rfl (by decide) rfl rfl
  exact ⟨w1, h1, h4, h5, h8, h9⟩

end precreator

namespace precreator

/-- What `Open` does to a Service without a signal. -/
theorem Open_stopped (w : System) (h : w.s.done = none) :
    Open w =
      ({ s := { w.s with done := some ⟨w.nextChan, false⟩, wg := w.s.wg + 1 }
         loops := w.loops + 1
         nextChan := w.nextChan + 1
         trace := w.trace ++
           sinkCalls w.s.Diagnostic [Event.Starting w.s.checkInterval w.s.advancePeriod] },
        none) := by
  unfold Open
  rw [h]
  cases hd : w.s.Diagnostic <;> simp [System.record, sinkCalls, hd]

/-- What `Open` does to a Service with a signal: nothing. -/
theorem Open_running (w : System) (h : w.s.done ≠ none) : Open w = (w, none) := by
  unfold Open
  cases hd : w.s.done with
  | none => exact absurd hd h
  | some ch => rfl

/-- What `Close` does to a Service with an open signal, one live goroutine and
a counter of one. -/
theorem Close_running (w : System) (ch : Chan) (h : w.s.done = some ch)
    (hc : ch.closed = false) (hwg : w.s.wg = 1) (hl : w.loops = 1) :
    Close w =
      Except.ok
        ({ s := { w.s with done := none, wg := 0 }
           loops := 0
           nextChan := w.nextChan
           trace := w.trace ++ sinkCalls w.s.Diagnostic [Event.Closing] },
          none) := by
  unfold Close
  rw [h]
  simp only [hc, hwg, waitLoops, runPrecreation, hl, doneBranch]
  cases hd : w.s.Diagnostic <;> simp [System.record, sinkCalls, hd, hwg, waitLoops, hl]

/-- What `Close` does to a Service without a signal: nothing. -/
theorem Close_stopped (w : System) (h : w.s.done = none) : Close w = Except.ok (w, none) := by
  unfold Close
  rw [h]

theorem Inv_init (c : Config) : Inv (System.init (NewService c).1) := by
  simp [Inv, System.init, NewService]

theorem Inv_stopped (w : System) (hi : Inv w) (h : w.s.done = none) :
    w.loops = 0 ∧ w.s.wg = 0 := by
  obtain ⟨h1, h2⟩ := hi
  rw [h] at h2
  exact ⟨h2, by omega⟩

theorem Inv_running (w : System) (ch : Chan) (hi : Inv w) (h : w.s.done = some ch) :
    w.loops = 1 ∧ w.s.wg = 1 ∧ ch.closed = false ∧ ch.id < w.nextChan := by
  obtain ⟨h1, h2⟩ := hi
  rw [h] at h2
  exact ⟨h2.1, by omega, h2.2.1, h2.2.2⟩

theorem Inv_Open (w : System) (hi : Inv w) : Inv (Open w).1 := by
  cases hd : w.s.done with
  | some ch => rw [Open_running w (by simp [hd])]; exact hi
  | none =>
    obtain ⟨h1, h2⟩ := Inv_stopped w hi hd
    rw [Open_stopped w hd]
    simp [Inv, h1, h2]

theorem Inv_Close (w w1 : System) (r : Option Error) (hi : Inv w)
    (h : Close w = Except.ok (w1, r)) : Inv w1 := by
  cases hd : w.s.done with
  | none =>
    rw [Close_stopped w hd] at h
    simp only [Except.ok.injEq, Prod.mk.injEq] at h
    rw [← h.1]; exact hi
  | some ch =>
    obtain ⟨h1, h2, h3, _⟩ := Inv_running w ch hi hd
    rw [Close_running w ch hd h3 h2 h1] at h
    simp only [Except.ok.injEq, Prod.mk.injEq] at h
    rw [← h.1]
    simp [Inv]

/-- A tick changes nothing but the trace. -/
theorem tick_frame (w w1 : System) (clock : Time)
    (h : runPrecreation w (Branch.timer clock) = Except.ok w1) :
    w1.s = w.s ∧ w1.loops = w.loops ∧ w1.nextChan = w.nextChan := by
  unfold runPrecreation at h
  split at h
  · simp at h
  · simp only [tickBranch, precreate] at h
    cases hm : w.s.MetaClient with
    | none => simp [hm] at h
    | some mc =>
      simp only [hm] at h
      cases hr : mc.PrecreateShardGroups (invocations w.trace) clock.UTC
          (clock.UTC.Add w.s.advancePeriod).UTC with
      | none =>
        simp only [hr, Except.ok.injEq] at h
        subst h
        simp [System.record]
      | some err =>
        simp only [hr] at h
        cases hd : w.s.Diagnostic with
        | none =>
          simp only [System.record, hd, Except.ok.injEq] at h
          subst h
          simp
        | some d =>
          simp only [System.record, hd, Except.ok.injEq] at h
          subst h
          simp

theorem Inv_step (w w1 : System) (op : Op) (r : Option Error) (hi : Inv w)
    (h : step w op = Except.ok (w1, r)) : Inv w1 := by
  cases op with
  | With d =>
    simp only [step, Except.ok.injEq, Prod.mk.injEq] at h
    rw [← h.1]; exact hi
  | SetMetaClient mc =>
    simp only [step, Except.ok.injEq, Prod.mk.injEq] at h
    rw [← h.1]; exact hi
  | Open =>
    simp only [step, Except.ok.injEq] at h
    have := Inv_Open w hi
    rw [h] at this
    exact this
  | Close => exact Inv_Close w w1 r hi h
  | tick clock =>
    simp only [step] at h
    cases ht : runPrecreation w (Branch.timer clock) with
    | error f => simp [ht] at h
    | ok w2 =>
      simp only [ht, Except.ok.injEq, Prod.mk.injEq] at h
      obtain ⟨f1, f2, f3⟩ := tick_frame w w2 clock ht
      rw [← h.1]
      unfold Inv
      rw [f1, f2, f3]
      exact hi

/-- The configuration of a Service never changes. -/
theorem step_config (w w1 : System) (op : Op) (r : Option Error) (hi : Inv w)
    (h : step w op = Except.ok (w1, r)) :
    w1.s.checkInterval = w.s.checkInterval ∧ w1.s.advancePeriod = w.s.advancePeriod := by
  cases op with
  | With d =>
    simp only [step, Except.ok.injEq, Prod.mk.injEq] at h
    rw [← h.1]; simp [With]
  | SetMetaClient mc =>
    simp only [step, Except.ok.injEq, Prod.mk.injEq] at h
    rw [← h.1]; simp [SetMetaClient]
  | Open =>
    simp only [step, Except.ok.injEq] at h
    cases hd : w.s.done with
    | some ch =>
      rw [Open_running w (by simp [hd])] at h
      simp only [Prod.mk.injEq] at h
      rw [← h.1]; simp
    | none =>
      rw [Open_stopped w hd] at h
      simp only [Prod.mk.injEq] at h
      rw [← h.1]; simp
  | Close =>
    simp only [step] at h
    cases hd : w.s.done with
    | none =>
      rw [Close_stopped w hd] at h
      simp only [Except.ok.injEq, Prod.mk.injEq] at h
      rw [← h.1]; simp
    | some ch =>
      obtain ⟨h1, h2, h3, _⟩ := Inv_running w ch hi hd
      rw [Close_running w ch hd h3 h2 h1] at h
      simp only [Except.ok.injEq, Prod.mk.injEq] at h
      rw [← h.1]
      exact ⟨rfl, rfl⟩
  | tick clock =>
    simp only [step] at h
    cases ht : runPrecreation w (Branch.timer clock) with
    | error f => simp [ht] at h
    | ok w2 =>
      simp only [ht, Except.ok.injEq, Prod.mk.injEq] at h
      obtain ⟨f1, _, _⟩ := tick_frame w w2 clock ht
      rw [← h.1, f1]; simp

end precreator

namespace precreator

/-- Every reachable System satisfies the lifecycle invariant and still carries
the configuration it was built from. -/
theorem Reachable_Inv (c : Config) (w : System) (h : Reachable c w) :
    Inv w ∧ w.s.checkInterval = c.CheckInterval ∧ w.s.advancePeriod = c.AdvancePeriod := by
  induction h with
  | init => exact ⟨Inv_init c, rfl, rfl⟩
  | step w w1 op r _ hs ih =>
    obtain ⟨i1, i2, i3⟩ := ih
    obtain ⟨c1, c2⟩ := step_config w w1 op r i1 hs
    exact ⟨Inv_step w w1 op r i1 hs, c1.trans i2, c2.trans i3⟩

/-- C4. On a Service whose signal is allocated, `Open` returns nil and changes
nothing: same Service, same goroutines, same trace.  Hence two calls of `Open`
on a Service without a signal end in the same System as one call: one more
goroutine, and, when a sink is attached, exactly one Starting report. -/
theorem Open_idempotent (w : System) (h : w.s.done ≠ none) :
    Open w = (w, none) ∧
    (∀ w0 : System, w0.s.done = none →
      Open (Open w0).1 = ((Open w0).1, none) ∧
      (Open (Open w0).1).1.loops = w0.loops + 1 ∧
      (Open (Open w0).1).1.trace = w0.trace ++
        sinkCalls w0.s.Diagnostic [Event.Starting w0.s.checkInterval w0.s.advancePeriod] ∧
      (∀ d, w0.s.Diagnostic = some d →
        (startings (Open (Open w0).1).1.trace).length = (startings w0.trace).length + 1) ∧
      (∀ c, Reachable c w0 → (Open (Open w0).1).1.loops = 1)) := by
  refine ⟨Open_running w h, ?_⟩
  intro w0 h0
  have hrun : (Open w0).1.s.done ≠ none := by rw [Open_stopped w0 h0]; simp
  rw [Open_running _ hrun]
  refine ⟨rfl, ?_, ?_, ?_, ?_⟩
  · rw [Open_stopped w0 h0]
  · rw [Open_stopped w0 h0]
  · intro d hd
    rw [Open_stopped w0 h0]
    simp [hd, sinkCalls, startings_append, startings]
  · intro c hr
    obtain ⟨hl, _⟩ := Inv_stopped w0 (Reachable_Inv c w0 hr).1 h0
    rw [Open_stopped w0 h0]
    simp [hl]

/-- C4 at a Service that has been opened once, with a sink attached. -/
theorem Open_idempotent_witness :
    Open (runningExample (some ⟨1⟩) neverFails) = (runningExample (some ⟨1⟩) neverFails, none) ∧
    (runningExample (some ⟨1⟩) neverFails).loops = 1 ∧
    (runningExample (some ⟨1⟩) neverFails).trace = [Event.Starting Hour (24 * Hour)] :=
  ⟨(Open_idempotent (runningExample (some ⟨1⟩) neverFails) (by decide)).1, rfl, rfl⟩

end precreator

namespace precreator

theorem Reachable_Open (c : Config) (w : System) (h : Reachable c w) :
    Reachable c (Open w).1 :=
  Reachable.step w (Open w).1 Op.Open (Open w).2 h rfl

theorem Reachable_Close (c : Config) (w w1 : System) (r : Option Error) (h : Reachable c w)
    (hc : Close w = Except.ok (w1, r)) : Reachable c w1 :=
  Reachable.step w w1 Op.Close r h hc

theorem Reachable_runningExample (d : Option Diagnostic) (mc : MetaClient) :
    Reachable exampleConfig (runningExample d mc) :=
  Reachable_Open _ _
    (Reachable.step _ _ (Op.SetMetaClient (some mc)) none
      (Reachable.step _ _ (Op.With d) none Reachable.init rfl) rfl)

/-- A call of `Close` that returns leaves the Service without a signal. -/
theorem Close_clears (w w1 : System) (r : Option Error) (h : Close w = Except.ok (w1, r)) :
    w1.s.done = none := by
  unfold Close at h
  cases hd : w.s.done with
  | none =>
    simp only [hd, Except.ok.injEq, Prod.mk.injEq] at h
    rw [← h.1]; exact hd
  | some ch =>
    simp only [hd] at h
    split at h
    · simp at h
    · split at h
      · simp at h
      · simp only [Except.ok.injEq, Prod.mk.injEq] at h
        rw [← h.1]

/-- C5. On a Service without a signal (freshly built, or closed), `Close`
returns nil and changes nothing: same Service, same goroutines, same trace.
Hence a second `Close` after any `Close` that returned changes nothing, and on a
reachable Running Service two calls end in the same System as one: no goroutine
left and, when a sink is attached, exactly one Closing report. -/
theorem Close_idempotent (w : System) (h : w.s.done = none) :
    Close w = Except.ok (w, none) ∧
    (∀ c : Config, Close (System.init (NewService c).1) =
      Except.ok (System.init (NewService c).1, none)) ∧
    (∀ (w0 w1 : System) (r : Option Error), Close w0 = Except.ok (w1, r) →
      Close w1 = Except.ok (w1, none)) ∧
    (∀ (c : Config) (w0 : System), Reachable c w0 → w0.s.done ≠ none →
      ∃ w1 : System, Close w0 = Except.ok (w1, none) ∧ Close w1 = Except.ok (w1, none) ∧
        w1.loops = 0 ∧
        w1.trace = w0.trace ++ sinkCalls w0.s.Diagnostic [Event.Closing] ∧
        (∀ d, w0.s.Diagnostic = some d →
          (closings w1.trace).length = (closings w0.trace).length + 1)) := by
  refine ⟨Close_stopped w h, fun c => Close_stopped _ rfl, ?_, ?_⟩
  · intro w0 w1 r hc
    exact Close_stopped w1 (Close_clears w0 w1 r hc)
  · intro c w0 hr hrun
    cases hd : w0.s.done with
    | none => exact absurd hd hrun
    | some ch =>
      obtain ⟨h1, h2, h3, _⟩ := Inv_running w0 ch (Reachable_Inv c w0 hr).1 hd
      have hc := Close_running w0 ch hd h3 h2 h1
      refine ⟨_, hc, Close_stopped _ rfl, rfl, rfl, ?_⟩
      intro d hs
      simp [hs, sinkCalls, closings_append, closings]

/-- C5 at a freshly built Service. -/
theorem Close_idempotent_witness :
    Close (stoppedExample (some ⟨1⟩) neverFails) =
      Except.ok (stoppedExample (some ⟨1⟩) neverFails, none) ∧
    (stoppedExample (some ⟨1⟩) neverFails).trace = [] :=
  ⟨(Close_idempotent (stoppedExample (some ⟨1⟩) neverFails) rfl).1, rfl⟩

/-- C6. In every System reachable from `NewService c` by assignments of the sink
and of the collaborator, `Open`, `Close` and ticks, at most one goroutine runs
the loop: exactly one when the signal is allocated, none when it is nil. -/
theorem at_most_one_loop (c : Config) (w : System) (h : Reachable c w) :
    w.loops ≤ 1 ∧ (w.loops = 1 ↔ w.s.done ≠ none) ∧ (w.loops = 0 ↔ w.s.done = none) := by
  have hi := (Reachable_Inv c w h).1
  cases hd : w.s.done with
  | none =>
    obtain ⟨h1, _⟩ := Inv_stopped w hi hd
    simp [h1]
  | some ch =>
    obtain ⟨h1, _⟩ := Inv_running w ch hi hd
    simp [h1]

/-- C6 at a Service that has been given a sink and a collaborator and opened. -/
theorem at_most_one_loop_witness :
    Reachable exampleConfig (runningExample (some ⟨1⟩) neverFails) ∧
    (runningExample (some ⟨1⟩) neverFails).loops = 1 ∧
    (runningExample (some ⟨1⟩) neverFails).s.done = some ⟨0, false⟩ ∧
    ((runningExample (some ⟨1⟩) neverFails).loops = 1 ↔
      (runningExample (some ⟨1⟩) neverFails).s.done ≠ none) :=
  ⟨Reachable_runningExample _ _, rfl, rfl,
    (at_most_one_loop exampleConfig (runningExample (some ⟨1⟩) neverFails)
      (Reachable_runningExample _ _)).2.1⟩

/-- C7. On a Service without a signal, `Open` returns nil, allocates a new open
channel as the signal, adds one to the WaitGroup and starts one goroutine; with
a sink attached it makes exactly one report, Starting, carrying the checkInterval
and advancePeriod of the Service, and without a sink it makes none; the
configuration, the sink and the collaborator are unchanged.  For a Service built
by `NewService c` the values reported are those of `c`, and the goroutine
started is the only one. -/
theorem Open_starts (w : System) (h : w.s.done = none) :
    (Open w).2 = none ∧
    (Open w).1.s.done = some ⟨w.nextChan, false⟩ ∧
    (Open w).1.nextChan = w.nextChan + 1 ∧
    (Open w).1.loops = w.loops + 1 ∧
    (Open w).1.s.wg = w.s.wg + 1 ∧
    (∀ d, w.s.Diagnostic = some d →
      (Open w).1.trace = w.trace ++ [Event.Starting w.s.checkInterval w.s.advancePeriod]) ∧
    (w.s.Diagnostic = none → (Open w).1.trace = w.trace) ∧
    (Open w).1.s.checkInterval = w.s.checkInterval ∧
    (Open w).1.s.advancePeriod = w.s.advancePeriod ∧
    (Open w).1.s.Diagnostic = w.s.Diagnostic ∧
    (Open w).1.s.MetaClient = w.s.MetaClient ∧
    (∀ c : Config, Reachable c w →
      (Open w).1.loops = 1 ∧
      w.s.checkInterval = c.CheckInterval ∧ w.s.advancePeriod = c.AdvancePeriod ∧
      (Open w).1.trace = w.trace ++
        sinkCalls w.s.Diagnostic [Event.Starting c.CheckInterval c.AdvancePeriod]) := by
  rw [Open_stopped w h]
  refine ⟨rfl, rfl, rfl, rfl, rfl, ?_, ?_, rfl, rfl, rfl, rfl, ?_⟩
  · intro d hd; simp [hd, sinkCalls]
  · intro hd; simp [hd, sinkCalls]
  · intro c hr
    obtain ⟨hi, c1, c2⟩ := Reachable_Inv c w hr
    obtain ⟨hl, _⟩ := Inv_stopped w hi h
    simp [hl, c1, c2]

/-- C7 at a freshly built Service with a sink attached. -/
theorem Open_starts_witness :
    (Open (stoppedExample (some ⟨1⟩) neverFails)).2 = none ∧
    (Open (stoppedExample (some ⟨1⟩) neverFails)).1.s.done = some ⟨0, false⟩ ∧
    (Open (stoppedExample (some ⟨1⟩) neverFails)).1.loops = 1 ∧
    (Open (stoppedExample (some ⟨1⟩) neverFails)).1.trace = [Event.Starting Hour (24 * Hour)] :=
  ⟨(Open_starts (stoppedExample (some ⟨1⟩) neverFails) rfl).1, rfl, rfl, rfl⟩

end precreator

namespace precreator

theorem sinkCalls_append (d : Option Diagnostic) (xs ys : List Event) :
    sinkCalls d (xs ++ ys) = sinkCalls d xs ++ sinkCalls d ys := by
  cases d <;> simp [sinkCalls]

/-- One `Open` and one `Close` on a Service without a signal. -/
theorem openClose_stopped (w : System) (hi : Inv w) (h : w.s.done = none) :
    openClose w =
      Except.ok
        { s := { w.s with done := none, wg := 0 }
          loops := 0
          nextChan := w.nextChan + 1
          trace := w.trace ++ sinkCalls w.s.Diagnostic
            [Event.Starting w.s.checkInterval w.s.advancePeriod, Event.Closing] } := by
  obtain ⟨hl, hwg⟩ := Inv_stopped w hi h
  unfold openClose
  rw [Open_stopped w h]
  simp only
  rw [Close_running _ ⟨w.nextChan, false⟩ rfl rfl (by simp [hwg]) (by simp [hl])]
  simp only [Except.ok.injEq]
  cases w.s.Diagnostic <;> simp [sinkCalls]

theorem Reachable_cycles (c : Config) (n : Nat) :
    ∀ w wn : System, Reachable c w → cycles n w = Except.ok wn → Reachable c wn := by
  induction n with
  | zero =>
    intro w wn hr hc
    simp only [cycles, Except.ok.injEq] at hc
    rw [← hc]; exact hr
  | succ n ih =>
    intro w wn hr hc
    simp only [cycles, openClose] at hc
    cases hcl : Close (Open w).1 with
    | error f => simp [hcl] at hc
    | ok p =>
      obtain ⟨w1, r⟩ := p
      simp only [hcl] at hc
      exact ih w1 wn (Reachable_Close c _ w1 r (Reachable_Open c w hr) hcl) hc

/-- Any number of cycles of `Open` and `Close` on a Service without a signal. -/
theorem cycles_stopped (n : Nat) :
    ∀ w : System, Inv w → w.s.done = none →
      ∃ wn : System, cycles n w = Except.ok wn ∧
        wn.s.done = none ∧ wn.loops = 0 ∧ wn.s.wg = 0 ∧
        wn.nextChan = w.nextChan + n ∧
        wn.trace = w.trace ++
          sinkCalls w.s.Diagnostic (cyclesCalls w.s.checkInterval w.s.advancePeriod n) ∧
        wn.s.checkInterval = w.s.checkInterval ∧ wn.s.advancePeriod = w.s.advancePeriod ∧
        wn.s.Diagnostic = w.s.Diagnostic ∧ wn.s.MetaClient = w.s.MetaClient := by
  induction n with
  | zero =>
    intro w hi h
    obtain ⟨hl, hwg⟩ := Inv_stopped w hi h
    refine ⟨w, rfl, h, hl, hwg, rfl, ?_, rfl, rfl, rfl, rfl⟩
    cases w.s.Diagnostic <;> simp [sinkCalls, cyclesCalls]
  | succ n ih =>
    intro w hi h
    have hoc := openClose_stopped w hi h
    obtain ⟨wn, e1, e2, e3, e4, e5, e6, e7, e8, e9, e10⟩ :=
      ih { s := { w.s with done := none, wg := 0 }
           loops := 0
           nextChan := w.nextChan + 1
           trace := w.trace ++ sinkCalls w.s.Diagnostic
             [Event.Starting w.s.checkInterval w.s.advancePeriod, Event.Closing] }
        (by simp [Inv]) rfl
    refine ⟨wn, ?_, e2, e3, e4, ?_, ?_, e7, e8, e9, e10⟩
    · simp only [cycles, hoc]
      exact e1
    · rw [e5]; simp only; omega
    · rw [e6]
      cases w.s.Diagnostic <;> simp [sinkCalls, cyclesCalls]

/-- C8. On a reachable Running Service, `Close` returns nil, and the System it
returns in has no goroutine left, a zero WaitGroup counter and no signal; with a
sink attached exactly one report, Closing, has been made, and without a sink
none.  The Service is then Stopped as after `NewService`: `Open` returns nil,
allocates a channel that is not the one just closed, starts the only goroutine
and reports Starting; and any number of further cycles of `Open` and `Close` run
to the end, each allocating its own channel and reporting Starting then Closing. -/
theorem Close_stops_and_reopens (c : Config) (w : System) (ch : Chan) (hr : Reachable c w)
    (h : w.s.done = some ch) :
    ∃ w1 : System, Close w = Except.ok (w1, none) ∧
      w1.loops = 0 ∧ w1.s.wg = 0 ∧ w1.s.done = none ∧
      w1.trace = w.trace ++ sinkCalls w.s.Diagnostic [Event.Closing] ∧
      (∀ d, w.s.Diagnostic = some d → w1.trace = w.trace ++ [Event.Closing]) ∧
      (w.s.Diagnostic = none → w1.trace = w.trace) ∧
      w1.s.checkInterval = w.s.checkInterval ∧ w1.s.advancePeriod = w.s.advancePeriod ∧
      w1.s.Diagnostic = w.s.Diagnostic ∧ w1.s.MetaClient = w.s.MetaClient ∧
      Reachable c w1 ∧
      (Open w1).2 = none ∧
      (Open w1).1.s.done = some ⟨w1.nextChan, false⟩ ∧ ch.id < w1.nextChan ∧
      (Open w1).1.s.done ≠ some ch ∧
      (Open w1).1.loops = 1 ∧
      (Open w1).1.trace = w1.trace ++
        sinkCalls w.s.Diagnostic [Event.Starting c.CheckInterval c.AdvancePeriod] ∧
      (∀ n : Nat, ∃ wn : System, cycles n w1 = Except.ok wn ∧
        wn.s.done = none ∧ wn.loops = 0 ∧ wn.nextChan = w1.nextChan + n ∧
        wn.trace = w1.trace ++
          sinkCalls w.s.Diagnostic (cyclesCalls c.CheckInterval c.AdvancePeriod n) ∧
        Reachable c wn) := by
  obtain ⟨hi, c1, c2⟩ := Reachable_Inv c w hr
  obtain ⟨h1, h2, h3, h4⟩ := Inv_running w ch hi h
  have hc := Close_running w ch h h3 h2 h1
  have hr1 := Reachable_Close c w _ none hr hc
  have hi1 := (Reachable_Inv c _ hr1).1
  refine ⟨_, hc, rfl, rfl, rfl, rfl, ?_, ?_, rfl, rfl, rfl, rfl, hr1, ?_, ?_, h4, ?_, ?_, ?_, ?_⟩
  · intro d hd; simp [hd, sinkCalls]
  · intro hd; simp [hd, sinkCalls]
  · rw [Open_stopped _ rfl]
  · rw [Open_stopped _ rfl]
  · rw [Open_stopped _ rfl]
    simp only [ne_eq, Option.some.injEq]
    intro hEq
    rw [← hEq] at h4
    simp at h4
  · rw [Open_stopped _ rfl]
  · rw [Open_stopped _ rfl]
    simp only [c1, c2]
  · intro n
    obtain ⟨wn, e1, e2, e3, _, e5, e6, _⟩ := cycles_stopped n _ hi1 rfl
    refine ⟨wn, e1, e2, e3, e5, ?_, Reachable_cycles c n _ wn hr1 e1⟩
    rw [e6]
    simp only [c1, c2]

/-- C8 at a Service that has been given a sink and a collaborator and opened. -/
theorem Close_stops_and_reopens_witness :
    ∃ w1 : System, Close (runningExample (some ⟨1⟩) neverFails) = Except.ok (w1, none) ∧
      w1.loops = 0 ∧ w1.s.done = none ∧
      w1.trace = [Event.Starting Hour (24 * Hour), Event.Closing] ∧
      (Open w1).1.s.done = some ⟨1, false⟩ := by
  obtain ⟨w1, h1, h2, _, h4, h5, _, _, _, _, _, _, _, _, h14, _⟩ :=
    Close_stops_and_reopens exampleConfig (runningExample (some ⟨1⟩) neverFails) ⟨0, false⟩
      (Reachable_runningExample _ _) rfl
  have hn : w1.nextChan = 1 := by
    have := Close_running (runningExample (some ⟨1⟩) neverFails) ⟨0, false⟩ rfl rfl rfl rfl
    rw [this] at h1
    simp only [Except.ok.injEq, Prod.mk.injEq, and_true] at h1
    rw [← h1]
    rfl
  refine ⟨w1, h1, h2, h4, h5, ?_⟩
  rw [h14, hn]

end precreator

namespace precreator

theorem calls_append (xs ys : List Event) : calls (xs ++ ys) = calls xs ++ calls ys := by
  induction xs with
  | nil => rfl
  | cons e es ih => cases e <;> simp [calls, ih]

theorem invocations_calls (es : List Event) : invocations (calls es) = invocations es := by
  induction es with
  | nil => rfl
  | cons e es ih => cases e <;> simp [calls, invocations, ih]

theorem reports_calls (es : List Event) : reports (calls es) = [] := by
  induction es with
  | nil => rfl
  | cons e es ih => cases e <;> simp [calls, reports, ih]

theorem precreate_withoutSink (w : System) (now : Time) :
    precreate (withoutSink w) now =
      (precreate w now).map (fun p => (withoutSink p.1, p.2)) := by
  unfold precreate
  cases hm : w.s.MetaClient with
  | none => simp [withoutSink, hm, Except.map]
  | some mc =>
    simp only [withoutSink, hm, invocations_calls]
    cases mc.PrecreateShardGroups (invocations w.trace) now (now.Add w.s.advancePeriod).UTC <;>
      simp [Except.map, System.record, calls_append, calls, hm]

theorem tickBranch_withoutSink (w : System) (clock : Time) :
    tickBranch (withoutSink w) clock = (tickBranch w clock).map withoutSink := by
  unfold tickBranch
  rw [precreate_withoutSink]
  cases hp : precreate w clock.UTC with
  | error f => simp [Except.map]
  | ok p =>
    obtain ⟨w1, r⟩ := p
    cases r with
    | none => simp [Except.map]
    | some err =>
      cases hd : w1.s.Diagnostic <;>
        simp [Except.map, withoutSink, hd, System.record, calls_append, calls]

theorem doneBranch_withoutSink (w : System) :
    doneBranch (withoutSink w) = (doneBranch w).map withoutSink := by
  unfold doneBranch
  cases hd : w.s.Diagnostic <;> cases hwg : w.s.wg <;>
    simp [Except.map, withoutSink, hd, hwg, System.record, calls_append, calls]

theorem runPrecreation_withoutSink (w : System) (b : Branch) :
    runPrecreation (withoutSink w) b = (runPrecreation w b).map withoutSink := by
  unfold runPrecreation
  by_cases hl : w.loops = 0
  · simp [withoutSink, hl, Except.map]
  · have hl1 : (withoutSink w).loops ≠ 0 := hl
    rw [if_neg hl, if_neg hl1]
    cases b with
    | timer clock => exact tickBranch_withoutSink w clock
    | cancelled =>
      have hdone : (withoutSink w).s.done = w.s.done := rfl
      simp only [hdone]
      cases hd : w.s.done with
      | none => simp [Except.map]
      | some ch =>
        cases hc : ch.closed
        · simp [Except.map, hc]
        · simpa [hc] using doneBranch_withoutSink w

theorem waitLoops_withoutSink (n : Nat) :
    ∀ w : System, waitLoops n (withoutSink w) = (waitLoops n w).map withoutSink := by
  induction n with
  | zero => intro w; simp [waitLoops, Except.map]
  | succ n ih =>
    intro w
    simp only [waitLoops]
    rw [runPrecreation_withoutSink]
    cases hr : runPrecreation w Branch.cancelled with
    | error f => cases f <;> simp [Except.map]
    | ok w1 => simpa [Except.map] using ih w1

end precreator

namespace precreator

theorem Close_withoutSink (w : System) :
    Close (withoutSink w) = (Close w).map (fun p => (withoutSink p.1, p.2)) := by
  have key : ∀ e : Except Stuck System,
      (match e.map withoutSink with
        | Except.error f => Except.error f
        | Except.ok w2 =>
          (Except.ok ({ w2 with s := { w2.s with done := none } }, none) :
            Except Stuck (System × Option Error))) =
      (match e with
        | Except.error f => Except.error f
        | Except.ok w2 =>
          (Except.ok ({ w2 with s := { w2.s with done := none } }, none) :
            Except Stuck (System × Option Error))).map
        (fun p : System × Option Error => (withoutSink p.1, p.2)) := by
    intro e
    cases e <;> simp [Except.map, withoutSink]
  unfold Close
  have hdone : (withoutSink w).s.done = w.s.done := rfl
  simp only [hdone]
  cases hd : w.s.done with
  | none => simp [Except.map]
  | some ch =>
    cases hc : ch.closed
    · have hw := waitLoops_withoutSink w.s.wg
        { w with s := { w.s with done := some { ch with closed := true } } }
      have hk := key (waitLoops w.s.wg
        { w with s := { w.s with done := some { ch with closed := true } } })
      rw [← hw] at hk
      simp only [hc, Bool.false_eq_true, if_false]
      exact hk
    · simp [Except.map, hc]

theorem Open_withoutSink (w : System) :
    Open (withoutSink w) = (withoutSink (Open w).1, (Open w).2) := by
  unfold Open
  have hdone : (withoutSink w).s.done = w.s.done := rfl
  simp only [hdone]
  cases hd : w.s.done with
  | some ch => rfl
  | none =>
    cases hs : w.s.Diagnostic <;>
      simp [withoutSink, hs, System.record, calls_append, calls]

theorem step_withoutSink (w : System) (op : Op) (hop : op.keepsSink = true) :
    step (withoutSink w) op = (step w op).map (fun p => (withoutSink p.1, p.2)) := by
  cases op with
  | With d => simp [Op.keepsSink] at hop
  | SetMetaClient mc => simp [step, Except.map, SetMetaClient, withoutSink]
  | Open => simp [step, Except.map, Open_withoutSink]
  | Close => exact Close_withoutSink w
  | tick clock =>
    simp only [step]
    rw [runPrecreation_withoutSink]
    cases runPrecreation w (Branch.timer clock) <;> simp [Except.map]

theorem exec_withoutSink (ops : List Op) :
    ∀ w : System, (∀ op ∈ ops, op.keepsSink = true) →
      exec (withoutSink w) ops = (exec w ops).map (fun p => (withoutSink p.1, p.2)) := by
  induction ops with
  | nil => intro w _; simp [exec, Except.map]
  | cons op ops ih =>
    intro w hops
    have h1 : op.keepsSink = true := hops op (List.mem_cons_self _ _)
    have h2 : ∀ o ∈ ops, o.keepsSink = true := fun o ho => hops o (List.mem_cons_of_mem _ ho)
    simp only [exec]
    rw [step_withoutSink w op h1]
    cases hs : step w op with
    | error f => simp [Except.map]
    | ok p =>
      obtain ⟨w1, r⟩ := p
      simp only [Except.map]
      rw [ih w1 h2]
      cases exec w1 ops with
      | error f => simp [Except.map]
      | ok q => simp [Except.map]

theorem doneBranch_sink (w w1 : System) (h : doneBranch w = Except.ok w1) :
    w1.s.Diagnostic = w.s.Diagnostic ∧ (w.s.Diagnostic = none → w1.trace = w.trace) := by
  unfold doneBranch at h
  cases hd : w.s.Diagnostic with
  | none =>
    cases hwg : w.s.wg with
    | zero => simp [hd, hwg] at h
    | succ n =>
      simp only [hd, hwg, Except.ok.injEq] at h
      subst h
      simp [hd]
  | some d =>
    cases hwg : w.s.wg with
    | zero => simp [hd, hwg, System.record] at h
    | succ n =>
      simp only [hd, hwg, System.record, Except.ok.injEq] at h
      subst h
      simp [hd]

theorem waitLoops_sink (n : Nat) :
    ∀ w w1 : System, waitLoops n w = Except.ok w1 →
      w1.s.Diagnostic = w.s.Diagnostic ∧ (w.s.Diagnostic = none → w1.trace = w.trace) := by
  induction n with
  | zero =>
    intro w w1 h
    simp only [waitLoops, Except.ok.injEq] at h
    subst h
    exact ⟨rfl, fun _ => rfl⟩
  | succ n ih =>
    intro w w1 h
    simp only [waitLoops] at h
    cases hr : runPrecreation w Branch.cancelled with
    | error f => cases f <;> simp [hr] at h
    | ok w2 =>
      simp only [hr] at h
      obtain ⟨a1, a2⟩ := ih w2 w1 h
      have hdb : doneBranch w = Except.ok w2 := by
        unfold runPrecreation at hr
        split at hr
        · simp at hr
        · simp only at hr
          split at hr
          · split at hr
            · exact hr
            · simp at hr
          · simp at hr
      obtain ⟨b1, b2⟩ := doneBranch_sink w w2 hdb
      refine ⟨a1.trans b1, fun hn => ?_⟩
      rw [a2 (b1.trans hn), b2 hn]

end precreator

namespace precreator

theorem tick_reports (w w1 : System) (clock : Time)
    (h : runPrecreation w (Branch.timer clock) = Except.ok w1) (hn : w.s.Diagnostic = none) :
    reports w1.trace = reports w.trace := by
  have hl : w.loops ≠ 0 := by
    intro h0
    simp [runPrecreation, h0] at h
  cases hm : w.s.MetaClient with
  | none => simp [runPrecreation, hl, tickBranch, precreate, hm] at h
  | some mc =>
    rw [tick_without_sink w mc clock hl hn hm] at h
    simp only [Except.ok.injEq] at h
    subst h
    simp [reports_append, reports]

/-- A step that is not an assignment of the sink leaves the sink alone and
returns nil, and without a sink it makes no report. -/
theorem step_sink (w w1 : System) (op : Op) (r : Option Error) (hop : op.keepsSink = true)
    (h : step w op = Except.ok (w1, r)) :
    w1.s.Diagnostic = w.s.Diagnostic ∧ r = none ∧
      (w.s.Diagnostic = none → reports w1.trace = reports w.trace) := by
  cases op with
  | With d => simp [Op.keepsSink] at hop
  | SetMetaClient mc =>
    simp only [step, Except.ok.injEq, Prod.mk.injEq] at h
    obtain ⟨h1, h2⟩ := h
    subst h1
    exact ⟨rfl, h2.symm, fun _ => rfl⟩
  | Open =>
    simp only [step, Except.ok.injEq] at h
    cases hd : w.s.done with
    | some ch =>
      rw [Open_running w (by simp [hd])] at h
      simp only [Prod.mk.injEq] at h
      obtain ⟨h1, h2⟩ := h
      subst h1
      exact ⟨rfl, h2.symm, fun _ => rfl⟩
    | none =>
      rw [Open_stopped w hd] at h
      simp only [Prod.mk.injEq] at h
      obtain ⟨h1, h2⟩ := h
      subst h1
      refine ⟨rfl, h2.symm, fun hn => ?_⟩
      simp [hn, sinkCalls]
  | Close =>
    simp only [step] at h
    unfold Close at h
    cases hd : w.s.done with
    | none =>
      simp only [hd, Except.ok.injEq, Prod.mk.injEq] at h
      obtain ⟨h1, h2⟩ := h
      subst h1
      exact ⟨rfl, h2.symm, fun _ => rfl⟩
    | some ch =>
      simp only [hd] at h
      split at h
      · simp at h
      · split at h
        · simp at h
        · rename_i w2 hw
          simp only [Except.ok.injEq, Prod.mk.injEq] at h
          obtain ⟨h1, h2⟩ := h
          obtain ⟨a1, a2⟩ := waitLoops_sink _ _ w2 hw
          subst h1
          exact ⟨a1, h2.symm, fun hn => by rw [a2 hn]⟩
  | tick clock =>
    simp only [step] at h
    cases ht : runPrecreation w (Branch.timer clock) with
    | error f => simp [ht] at h
    | ok w2 =>
      simp only [ht, Except.ok.injEq, Prod.mk.injEq] at h
      obtain ⟨h1, h2⟩ := h
      obtain ⟨f1, _, _⟩ := tick_frame w w2 clock ht
      subst h1
      exact ⟨by rw [f1], h2.symm, fun hn => tick_reports w w2 clock ht hn⟩

theorem exec_sink (ops : List Op) :
    ∀ (w w1 : System) (rs : List (Option Error)), (∀ op ∈ ops, op.keepsSink = true) →
      exec w ops = Except.ok (w1, rs) →
      w1.s.Diagnostic = w.s.Diagnostic ∧ (∀ r ∈ rs, r = none) ∧ rs.length = ops.length ∧
        (w.s.Diagnostic = none → reports w1.trace = reports w.trace) := by
  induction ops with
  | nil =>
    intro w w1 rs _ h
    simp only [exec, Except.ok.injEq, Prod.mk.injEq] at h
    obtain ⟨h1, h2⟩ := h
    subst h1 h2
    simp
  | cons op ops ih =>
    intro w w1 rs hops h
    have h1 : op.keepsSink = true := hops op (List.mem_cons_self _ _)
    have h2 : ∀ o ∈ ops, o.keepsSink = true := fun o ho => hops o (List.mem_cons_of_mem _ ho)
    simp only [exec] at h
    cases hs : step w op with
    | error f => simp [hs] at h
    | ok p =>
      obtain ⟨wa, r⟩ := p
      simp only [hs] at h
      cases he : exec wa ops with
      | error f => simp [he] at h
      | ok q =>
        obtain ⟨wb, rs1⟩ := q
        simp only [he, Except.ok.injEq, Prod.mk.injEq] at h
        obtain ⟨e1, e2⟩ := h
        subst e1 e2
        obtain ⟨a1, a2, a3⟩ := step_sink w wa op r h1 hs
        obtain ⟨b1, b2, b3, b4⟩ := ih wa wb rs1 h2 he
        refine ⟨b1.trans a1, ?_, ?_, fun hn => ?_⟩
        · intro x hx
          rcases List.mem_cons.mp hx with hx | hx
          · rw [hx]; exact a2
          · exact b2 x hx
        · simp [b3]
        · rw [b4 (a1.trans hn), a3 hn]

theorem sameButSink_of_withoutSink (w1 w2 : System) (h : withoutSink w1 = withoutSink w2) :
    SameButSink w1 w2 := by
  have hs : (withoutSink w1).s = (withoutSink w2).s := by rw [h]
  have hl : (withoutSink w1).loops = (withoutSink w2).loops := by rw [h]
  have hc : (withoutSink w1).nextChan = (withoutSink w2).nextChan := by rw [h]
  have ht : (withoutSink w1).trace = (withoutSink w2).trace := by rw [h]
  simp only [withoutSink, Service.mk.injEq] at hs
  obtain ⟨s1, s2, _, s4, s5, s6⟩ := hs
  refine ⟨s1, s2, s4, s5, s6, hl, hc, ?_⟩
  have ht1 : calls w1.trace = calls w2.trace := ht
  rw [← invocations_calls w1.trace, ← invocations_calls w2.trace, ht1]

end precreator

namespace precreator

/-- The run with a sink attached to `w` and the run without, seen through
`withoutSink`, are the same. -/
theorem exec_attach (w : System) (d : Diagnostic) (ops : List Op)
    (hops : ∀ op ∈ ops, op.keepsSink = true) :
    (exec (With w (some d)) ops).map (fun p => (withoutSink p.1, p.2)) =
      (exec w ops).map (fun p => (withoutSink p.1, p.2)) := by
  have a := exec_withoutSink ops w hops
  have b := exec_withoutSink ops (With w (some d)) hops
  have e : withoutSink (With w (some d)) = withoutSink w := rfl
  rw [e] at b
  rw [← a, ← b]

/-- C9. Take a Service without a sink, the same Service with the sink `d`
attached, and any sequence of `Open`, `Close`, ticks and collaborator assignments.
The two runs end alike: both stop with the same fault, or both run to the end
with the same returned errors, all nil, the same signal, counter, goroutines,
allocator, collaborator and configuration, and the same collaborator
invocations.  The run without a sink keeps no sink and makes no report, and in a
reachable System without a sink `Open` and `Close` return nil, as does a tick of
a Running Service that has a collaborator. -/
theorem sink_never_influences (w : System) (d : Diagnostic) (ops : List Op)
    (hnone : w.s.Diagnostic = none) (hops : ∀ op ∈ ops, op.keepsSink = true) :
    (∀ (w1 : System) (rs : List (Option Error)), exec w ops = Except.ok (w1, rs) →
      ∃ w2 : System, exec (With w (some d)) ops = Except.ok (w2, rs) ∧
        SameButSink w1 w2 ∧ w1.s.Diagnostic = none ∧ w2.s.Diagnostic = some d ∧
        reports w1.trace = reports w.trace ∧ (∀ r ∈ rs, r = none)) ∧
    (∀ (w2 : System) (rs : List (Option Error)),
      exec (With w (some d)) ops = Except.ok (w2, rs) →
      ∃ w1 : System, exec w ops = Except.ok (w1, rs) ∧ SameButSink w1 w2) ∧
    (∀ f : Stuck, exec w ops = Except.error f ↔ exec (With w (some d)) ops = Except.error f) ∧
    (∀ c : Config, Reachable c w →
      (∃ w1, step w Op.Open = Except.ok (w1, none) ∧ reports w1.trace = reports w.trace) ∧
      (∃ w1, step w Op.Close = Except.ok (w1, none) ∧ reports w1.trace = reports w.trace) ∧
      (∀ (clock : Time) (mc : MetaClient), w.s.done ≠ none → w.s.MetaClient = some mc →
        ∃ w1, step w (Op.tick clock) = Except.ok (w1, none) ∧
          reports w1.trace = reports w.trace)) := by
  have key := exec_attach w d ops hops
  refine ⟨?_, ?_, ?_, ?_⟩
  · intro w1 rs h
    rw [h] at key
    cases h2 : exec (With w (some d)) ops with
    | error f => simp [h2, Except.map] at key
    | ok p =>
      obtain ⟨w2, rs2⟩ := p
      simp only [h2, Except.map, Except.ok.injEq, Prod.mk.injEq] at key
      obtain ⟨k1, k2⟩ := key
      subst k2
      obtain ⟨a1, a2, _, a4⟩ := exec_sink ops w w1 rs2 hops h
      obtain ⟨b1, _⟩ := exec_sink ops (With w (some d)) w2 rs2 hops h2
      exact ⟨w2, rfl, sameButSink_of_withoutSink w1 w2 k1.symm, a1.trans hnone, b1,
        a4 hnone, a2⟩
  · intro w2 rs h
    rw [h] at key
    cases h1 : exec w ops with
    | error f => simp [h1, Except.map] at key
    | ok p =>
      obtain ⟨w1, rs1⟩ := p
      simp only [h1, Except.map, Except.ok.injEq, Prod.mk.injEq] at key
      obtain ⟨k1, k2⟩ := key
      subst k2
      exact ⟨w1, rfl, sameButSink_of_withoutSink w1 w2 k1.symm⟩
  · intro f
    cases h1 : exec w ops <;> cases h2 : exec (With w (some d)) ops <;>
      simp [h1, h2, Except.map] at key ⊢
    exact ⟨fun h => key.trans h, fun h => key.symm.trans h⟩
  · intro c hr
    obtain ⟨hi, _, _⟩ := Reachable_Inv c w hr
    refine ⟨?_, ?_, ?_⟩
    · have hs : step w Op.Open = Except.ok ((Open w).1, (Open w).2) := rfl
      obtain ⟨_, a2, a3⟩ := step_sink w _ Op.Open _ rfl hs
      rw [a2] at hs
      exact ⟨_, hs, a3 hnone⟩
    · cases hd : w.s.done with
      | none => exact ⟨w, Close_stopped w hd, rfl⟩
      | some ch =>
        obtain ⟨h1, h2, h3, _⟩ := Inv_running w ch hi hd
        have hc := Close_running w ch hd h3 h2 h1
        refine ⟨_, hc, ?_⟩
        simp [hnone, sinkCalls]
    · intro clock mc hrun hm
      cases hd : w.s.done with
      | none => exact absurd hd hrun
      | some ch =>
        obtain ⟨h1, _⟩ := Inv_running w ch hi hd
        have hl : w.loops ≠ 0 := by omega
        have ht := tick_without_sink w mc clock hl hnone hm
        have hs : step w (Op.tick clock) = Except.ok
            ({ w with
               trace := w.trace ++
                 [Event.PrecreateShardGroups clock.UTC (clock.UTC.Add w.s.advancePeriod).UTC] },
              none) := by
          simp only [step, ht]
        refine ⟨_, hs, ?_⟩
        simp [reports_append, reports]

/-- C9 at one `Open`, one tick and one `Close` of a freshly built Service. -/
theorem sink_never_influences_witness :
    ∃ w1 w2 : System,
      exec (stoppedExample none neverFails)
        [Op.Open, Op.tick ⟨100, 0, Location.Local⟩, Op.Close] =
        Except.ok (w1, [none, none, none]) ∧
      exec (With (stoppedExample none neverFails) (some ⟨1⟩))
        [Op.Open, Op.tick ⟨100, 0, Location.Local⟩, Op.Close] =
        Except.ok (w2, [none, none, none]) ∧
      SameButSink w1 w2 ∧ reports w1.trace = [] := by
  have h1 : exec (stoppedExample none neverFails)
      [Op.Open, Op.tick ⟨100, 0, Location.Local⟩, Op.Close] = Except.ok (_, [none, none, none]) :=
    rfl
  obtain ⟨w2, a1, a2, _, _, a5, _⟩ :=
    (sink_never_influences (stoppedExample none neverFails) ⟨1⟩
      [Op.Open, Op.tick ⟨100, 0, Location.Local⟩, Op.Close] rfl (by decide)).1 _ _ h1
  exact ⟨_, w2, h1, a1, a2, a5⟩

end precreator

namespace precreator

theorem runActs_append (acts1 : List Act) :
    ∀ (w : System) (acts2 : List Act),
      runActs w (acts1 ++ acts2) =
        match runActs w acts1 with
        | Except.ok w1 => runActs w1 acts2
        | Except.error f => Except.error f := by
  induction acts1 with
  | nil => intro w acts2; rfl
  | cons a acts ih =>
    intro w acts2
    simp only [List.cons_append, runActs]
    cases act w a with
    | error f => rfl
    | ok w1 => exact ih w1 acts2

theorem tickClocks_append (acts1 acts2 : List Act) :
    tickClocks (acts1 ++ acts2) = tickClocks acts1 ++ tickClocks acts2 := by
  induction acts1 with
  | nil => rfl
  | cons a acts ih => cases a <;> simp [tickClocks, ih]

theorem tickResults_append (mc : MetaClient) (ap : Duration) (cs1 cs2 : List Time) :
    ∀ hist, tickResults mc ap hist (cs1 ++ cs2) =
      tickResults mc ap hist cs1 ++
        tickResults mc ap
          (hist ++ cs1.map (fun clock => (clock.UTC, (clock.UTC.Add ap).UTC))) cs2 := by
  induction cs1 with
  | nil => intro hist; simp [tickResults]
  | cons c cs ih => intro hist; simp [tickResults, ih]

theorem ticksCalls_append (ap : Duration) (cs1 cs2 : List Time) :
    ∀ rs1 rs2 : List (Option Error), rs1.length = cs1.length →
      ticksCalls ap (cs1 ++ cs2) (rs1 ++ rs2) =
        ticksCalls ap cs1 rs1 ++ ticksCalls ap cs2 rs2 := by
  induction cs1 with
  | nil =>
    intro rs1 rs2 h
    cases rs1 with
    | nil => simp [ticksCalls]
    | cons r rs => simp at h
  | cons c cs ih =>
    intro rs1 rs2 h
    cases rs1 with
    | nil => simp at h
    | cons r rs =>
      have h1 : rs.length = cs.length := by simpa using h
      simp [ticksCalls, ih rs rs2 h1]

/-- The calls of a sequence of ticks followed by one more tick. -/
theorem ticksCalls_snoc (mc : MetaClient) (ap : Duration) (hist : List (Time × Time))
    (cs : List Time) (c : Time) :
    ticksCalls ap (cs ++ [c]) (tickResults mc ap hist (cs ++ [c])) =
      ticksCalls ap cs (tickResults mc ap hist cs) ++
        tickCalls ap c
          (mc.PrecreateShardGroups
            (hist ++ cs.map (fun clock => (clock.UTC, (clock.UTC.Add ap).UTC)))
            c.UTC (c.UTC.Add ap).UTC) := by
  rw [tickResults_append, ticksCalls_append ap cs [c] _ _ (tickResults_length mc ap cs hist)]
  simp [ticksCalls, tickResults]

/-- A sequence of ticks reports neither Starting nor Closing. -/
theorem mem_ticksCalls (ap : Duration) (cs : List Time) :
    ∀ (rs : List (Option Error)) (e : Event), e ∈ ticksCalls ap cs rs →
      (∃ now cutoff, e = Event.PrecreateShardGroups now cutoff) ∨
      (∃ err, e = Event.PrecreateError err) := by
  induction cs with
  | nil => intro rs e h; simp [ticksCalls] at h
  | cons c cs ih =>
    intro rs e h
    cases rs with
    | nil => simp [ticksCalls] at h
    | cons r rs =>
      simp only [ticksCalls, List.mem_append] at h
      rcases h with h | h
      · cases r with
        | none =>
          simp only [tickCalls, List.mem_cons, List.mem_singleton, List.not_mem_nil,
            or_false] at h
          exact Or.inl ⟨_, _, h⟩
        | some err =>
          simp only [tickCalls, List.mem_cons, List.mem_singleton, List.not_mem_nil,
            or_false] at h
          rcases h with h | h
          · exact Or.inl ⟨_, _, h⟩
          · exact Or.inr ⟨_, h⟩
      · exact ih rs e h

end precreator

namespace precreator

/-- Within the calls of a sequence of ticks, every PrecreateError stands right
after a collaborator invocation and carries the error that invocation returned. -/
theorem ticksCalls_error_adjacent (mc : MetaClient) (ap : Duration) (cs : List Time) :
    ∀ (hist : List (Time × Time)) (pre post : List Event) (err : Error),
      ticksCalls ap cs (tickResults mc ap hist cs) = pre ++ Event.PrecreateError err :: post →
      ∃ (pre1 : List Event) (now cutoff : Time),
        pre = pre1 ++ [Event.PrecreateShardGroups now cutoff] ∧
        mc.PrecreateShardGroups (hist ++ invocations pre1) now cutoff = some err := by
  induction cs with
  | nil =>
    intro hist pre post err h
    simp [ticksCalls] at h
  | cons c cs ih =>
    intro hist pre post err h
    simp only [tickResults, ticksCalls, tickCalls, List.cons_append] at h
    cases pre with
    | nil => simp at h
    | cons e pre1 =>
      simp only [List.cons_append, List.cons.injEq] at h
      obtain ⟨he, h⟩ := h
      cases hr : mc.PrecreateShardGroups hist c.UTC (c.UTC.Add ap).UTC with
      | none =>
        simp only [hr, List.nil_append] at h
        obtain ⟨p2, now, cutoff, hp, hmc⟩ := ih _ pre1 post err h
        refine ⟨e :: p2, now, cutoff, by simp [hp], ?_⟩
        rw [← he]
        simpa [invocations] using hmc
      | some e0 =>
        simp only [hr, List.cons_append, List.nil_append] at h
        cases pre1 with
        | nil =>
          simp only [List.nil_append, List.cons.injEq, Event.PrecreateError.injEq] at h
          refine ⟨[], c.UTC, (c.UTC.Add ap).UTC, by simp [he], ?_⟩
          simp [invocations, hr, h.1]
        | cons e1 pre2 =>
          simp only [List.cons_append, List.cons.injEq] at h
          obtain ⟨he1, h⟩ := h
          obtain ⟨p2, now, cutoff, hp, hmc⟩ := ih _ pre2 post err h
          refine ⟨e :: e1 :: p2, now, cutoff, by simp [hp], ?_⟩
          rw [← he, ← he1]
          simpa [invocations] using hmc

/-- Where an element of a list that ends in `a` can stand: at the end, or
before the end. -/
theorem split_before_last {α : Type} (xs pre post : List α) (a b : α)
    (h : xs ++ [a] = pre ++ b :: post) :
    (post = [] ∧ a = b ∧ xs = pre) ∨
    ∃ post1, post = post1 ++ [a] ∧ xs = pre ++ b :: post1 := by
  rcases List.eq_nil_or_concat post with hp | ⟨post1, x, hp⟩
  · subst hp
    have h1 : xs ++ [a] = pre ++ [b] := h
    obtain ⟨e1, e2⟩ := List.append_inj' h1 rfl
    exact Or.inl ⟨rfl, by simpa using e2, e1⟩
  · subst hp
    have h1 : xs ++ [a] = (pre ++ b :: post1) ++ [x] := by simpa using h
    obtain ⟨e1, e2⟩ := List.append_inj' h1 rfl
    have e3 : a = x := by simpa using e2
    exact Or.inr ⟨post1, by rw [e3, List.concat_eq_append], e1⟩

theorem tick_ok (w w1 : System) (d : Diagnostic) (mc : MetaClient) (clock : Time)
    (hd : w.s.Diagnostic = some d) (hm : w.s.MetaClient = some mc)
    (h : runPrecreation w (Branch.timer clock) = Except.ok w1) :
    w.loops ≠ 0 ∧
    w1 = { w with
           trace := w.trace ++ tickCalls w.s.advancePeriod clock
             (mc.PrecreateShardGroups (invocations w.trace) clock.UTC
               (clock.UTC.Add w.s.advancePeriod).UTC) } := by
  have hl : w.loops ≠ 0 := by
    intro h0
    simp [runPrecreation, h0] at h
  rw [tick_with_sink w d mc clock hl hd hm] at h
  simp only [Except.ok.injEq] at h
  exact ⟨hl, h.symm⟩

theorem cancelled_ok (w w1 : System) (d : Diagnostic) (hd : w.s.Diagnostic = some d)
    (h : runPrecreation w Branch.cancelled = Except.ok w1) :
    ∃ (ch : Chan) (n : Nat), w.loops ≠ 0 ∧ w.s.done = some ch ∧ ch.closed = true ∧
      w.s.wg = n + 1 ∧
      w1 = { s := { w.s with wg := n }
             loops := w.loops - 1
             nextChan := w.nextChan
             trace := w.trace ++ [Event.Closing] } := by
  have hl : w.loops ≠ 0 := by
    intro h0
    simp [runPrecreation, h0] at h
  unfold runPrecreation at h
  rw [if_neg hl] at h
  simp only at h
  cases hdone : w.s.done with
  | none => simp [hdone] at h
  | some ch =>
    simp only [hdone] at h
    cases hc : ch.closed with
    | false => simp [hc] at h
    | true =>
      simp only [hc, if_true, doneBranch, hd, System.record] at h
      cases hwg : w.s.wg with
      | zero => simp [hwg] at h
      | succ n =>
        simp only [hwg, Except.ok.injEq] at h
        refine ⟨ch, n, hl, rfl, hc, rfl, ?_⟩
        rw [← h]
        simp [hd]

theorem closeSignal_ok (w w1 : System) (h : closeSignal w = Except.ok w1) :
    (w.s.done = none ∧ w1 = w) ∨
    ∃ ch : Chan, w.s.done = some ch ∧ ch.closed = false ∧
      w1 = { w with s := { w.s with done := some { ch with closed := true } } } := by
  unfold closeSignal at h
  cases hdone : w.s.done with
  | none =>
    simp only [hdone, Except.ok.injEq] at h
    exact Or.inl ⟨rfl, h.symm⟩
  | some ch =>
    simp only [hdone] at h
    cases hc : ch.closed with
    | true => simp [hc] at h
    | false =>
      simp only [hc, Bool.false_eq_true, if_false, Except.ok.injEq] at h
      exact Or.inr ⟨ch, rfl, hc, h.symm⟩

theorem closeReturn_ok (w w1 : System) (h : closeReturn w = Except.ok w1) :
    ∃ ch : Chan, w.s.done = some ch ∧ ch.closed = true ∧ w.s.wg = 0 ∧
      w1 = { w with s := { w.s with done := none } } := by
  unfold closeReturn at h
  cases hdone : w.s.done with
  | none => simp [hdone] at h
  | some ch =>
    simp only [hdone] at h
    cases hc : ch.closed with
    | false => simp [hc] at h
    | true =>
      by_cases hwg : w.s.wg = 0
      · simp only [hc, if_true, hwg, Except.ok.injEq] at h
        refine ⟨ch, rfl, hc, hwg, ?_⟩
        rw [← h]
        simp [hwg]
      · simp [hc, hwg] at h

end precreator

namespace precreator

theorem invocations_runCalls (ci ap : Duration) (cs : List Time) (rs : List (Option Error))
    (loops : Nat) (h : rs.length = cs.length) :
    invocations (runCalls ci ap cs rs loops) =
      cs.map (fun clock => (clock.UTC, (clock.UTC.Add ap).UTC)) := by
  obtain ⟨f1, _⟩ := ticksCalls_facts ap cs rs h
  unfold runCalls
  by_cases hl : loops = 0 <;> simp [invocations, invocations_append, f1, hl]

/-- The shape of every System a run can be in after its `Open`. -/
theorem run_shape (w0 : System) (d : Diagnostic) (mc : MetaClient) (hi : Inv w0)
    (h0 : w0.s.done = none) (hd : w0.s.Diagnostic = some d) (hm : w0.s.MetaClient = some mc)
    (acts : List Act) :
    (∀ a ∈ acts, a ≠ Act.Open) → ∀ w1 : System, runActs (Open w0).1 acts = Except.ok w1 →
      w1.s.checkInterval = w0.s.checkInterval ∧ w1.s.advancePeriod = w0.s.advancePeriod ∧
      w1.s.Diagnostic = some d ∧ w1.s.MetaClient = some mc ∧
      w1.s.wg = w1.loops ∧ w1.loops ≤ 1 ∧
      w1.trace = w0.trace ++ runCalls w0.s.checkInterval w0.s.advancePeriod (tickClocks acts)
        (tickResults mc w0.s.advancePeriod (invocations w0.trace) (tickClocks acts)) w1.loops ∧
      (w1.loops = 1 →
        ∃ ch, w1.s.done = some ch ∧ (ch.closed = true → Act.closeSignal ∈ acts)) ∧
      (w1.loops = 0 →
        (w1.s.done = none ∨ ∃ ch, w1.s.done = some ch ∧ ch.closed = true) ∧
        ∃ acts1 acts2, acts = acts1 ++ Act.cancelled :: acts2 ∧ Act.closeSignal ∈ acts1 ∧
          tickClocks acts2 = []) := by
  induction acts using List.reverseRecOn with
  | nil =>
    intro _ w1 hrun
    obtain ⟨hl, hwg⟩ := Inv_stopped w0 hi h0
    simp only [runActs, Except.ok.injEq] at hrun
    rw [Open_stopped w0 h0] at hrun
    subst hrun
    simp [hd, hm, hl, hwg, sinkCalls, runCalls, tickClocks, tickResults, ticksCalls]
  | append_singleton acts a ih =>
    intro hacts w1 hrun
    have hacts1 : ∀ x ∈ acts, x ≠ Act.Open := fun x hx => hacts x (by simp [hx])
    have ha : a ≠ Act.Open := hacts a (by simp)
    rw [runActs_append] at hrun
    cases hr : runActs (Open w0).1 acts with
    | error f => simp [hr] at hrun
    | ok wm =>
      simp only [hr, runActs] at hrun
      have hact : act wm a = Except.ok w1 := by
        cases hx : act wm a with
        | error f => simp [hx] at hrun
        | ok w2 => simpa [hx] using hrun
      obtain ⟨i1, i2, i3, i4, i5, i6, i7, i8, i9⟩ := ih hacts1 wm hr
      have hlen := tickResults_length mc w0.s.advancePeriod (tickClocks acts)
        (invocations w0.trace)
      cases a with
      | Open => exact absurd rfl ha
      | tick clock =>
        simp only [act] at hact
        obtain ⟨hl, hw⟩ := tick_ok wm w1 d mc clock i3 i4 hact
        have hl1 : wm.loops = 1 := by omega
        have hinv : invocations wm.trace = invocations w0.trace ++
            (tickClocks acts).map
              (fun clock => (clock.UTC, (clock.UTC.Add w0.s.advancePeriod).UTC)) := by
          rw [i7, invocations_append, invocations_runCalls _ _ _ _ _ hlen]
        subst hw
        refine ⟨i1, i2, i3, i4, i5, i6, ?_, ?_, ?_⟩
        · simp only [i2, hinv]
          rw [i7]
          simp only [tickClocks_append, tickClocks, ticksCalls_snoc, runCalls, hl1]
          simp
        · intro _
          obtain ⟨ch, c1, c2⟩ := i8 hl1
          exact ⟨ch, c1, fun hc => by simp [c2 hc]⟩
        · intro h
          exact absurd h (by simp [hl1])
      | closeSignal =>
        simp only [act] at hact
        rcases closeSignal_ok wm w1 hact with ⟨hdn, hw⟩ | ⟨ch, hdn, hc, hw⟩
        · subst hw
          have hl0 : w1.loops = 0 := by
            rcases Nat.le_one_iff_eq_zero_or_eq_one.mp i6 with h | h
            · exact h
            · obtain ⟨ch, c1, _⟩ := i8 h
              rw [hdn] at c1
              exact absurd c1 (by simp)
          refine ⟨i1, i2, i3, i4, i5, i6, ?_, ?_, ?_⟩
          · simpa [tickClocks_append, tickClocks] using i7
          · intro h
            exact absurd h (by simp [hl0])
          · intro _
            obtain ⟨c1, acts1, acts2, c2, c3, c4⟩ := i9 hl0
            refine ⟨c1, acts1, acts2 ++ [Act.closeSignal], by simp [c2], c3, ?_⟩
            simp [tickClocks_append, tickClocks, c4]
        · have hl1 : wm.loops = 1 := by
            rcases Nat.le_one_iff_eq_zero_or_eq_one.mp i6 with h | h
            · obtain ⟨c1, _⟩ := i9 h
              rcases c1 with c1 | ⟨ch1, c1, c2⟩
              · rw [hdn] at c1
                exact absurd c1 (by simp)
              · rw [hdn] at c1
                simp only [Option.some.injEq] at c1
                rw [← c1, hc] at c2
                exact absurd c2 (by simp)
            · exact h
          subst hw
          refine ⟨i1, i2, i3, i4, i5, i6, ?_, ?_, ?_⟩
          · simpa [tickClocks_append, tickClocks] using i7
          · intro _
            exact ⟨_, rfl, fun _ => by simp⟩
          · intro h
            exact absurd h (by simp [hl1])
      | cancelled =>
        simp only [act] at hact
        obtain ⟨ch, n, hl, hdn, hc, hwg, hw⟩ := cancelled_ok wm w1 d i3 hact
        have hl1 : wm.loops = 1 := by omega
        have hn : n = 0 := by omega
        obtain ⟨ch1, c1, c2⟩ := i8 hl1
        have hch : ch1 = ch := by
          rw [hdn] at c1
          simpa using c1.symm
        subst hw
        refine ⟨i1, i2, i3, i4, ?_, ?_, ?_, ?_, ?_⟩
        · simp [hn, hl1]
        · simp [hl1]
        · simp only [tickClocks_append, tickClocks, List.append_nil, i7, runCalls, hl1]
          simp
        · intro h
          simp [hl1] at h
        · intro _
          refine ⟨Or.inr ⟨ch, hdn, hc⟩, acts, [], rfl, c2 (by rw [hch]; exact hc), rfl⟩
      | closeReturn =>
        simp only [act] at hact
        obtain ⟨ch, hdn, hc, hwg, hw⟩ := closeReturn_ok wm w1 hact
        have hl0 : wm.loops = 0 := by omega
        subst hw
        refine ⟨i1, i2, i3, i4, i5, i6, ?_, ?_, ?_⟩
        · simpa [tickClocks_append, tickClocks] using i7
        · intro h
          exact absurd h (by simp [hl0])
        · intro _
          obtain ⟨_, acts1, acts2, c2, c3, c4⟩ := i9 hl0
          refine ⟨Or.inl rfl, acts1, acts2 ++ [Act.closeReturn], by simp [c2], c3, ?_⟩
          simp [tickClocks_append, tickClocks, c4]

end precreator

namespace precreator

theorem Reachable_stoppedExample (d : Option Diagnostic) (mc : MetaClient) :
    Reachable exampleConfig (stoppedExample d mc) :=
  Reachable.step _ _ (Op.SetMetaClient (some mc)) none
    (Reachable.step _ _ (Op.With d) none Reachable.init rfl) rfl

/-- C11. Take a reachable Stopped Service with a sink and a collaborator, and
any sequence of steps that starts with `Open`, contains no other `Open` and can
be taken: ticks, the closing of the signal by `Close`, the iteration in which the
loop receives from the closed signal, the return of `Close`.  The calls made
during it are Starting, then the calls of the ticks in the order of the ticks,
then Closing once the loop has left.  So Starting stands before every
collaborator invocation; every PrecreateError stands right after a collaborator
invocation and carries the error that invocation returned; nothing follows
Closing, which is reported only in an iteration that comes after the closing of
the signal and after the last tick; as long as the loop is live there is no
Closing, once the WaitGroup counter is zero Closing is the last call, and `Close`
returns only then. -/
theorem run_events_in_order (c : Config) (w0 w1 : System) (d : Diagnostic) (mc : MetaClient)
    (acts : List Act) (hr : Reachable c w0) (h0 : w0.s.done = none)
    (hd : w0.s.Diagnostic = some d) (hm : w0.s.MetaClient = some mc)
    (hacts : ∀ a ∈ acts, a ≠ Act.Open)
    (hrun : runActs w0 (Act.Open :: acts) = Except.ok w1) :
    ∃ events : List Event,
      w1.trace = w0.trace ++ events ∧
      events = runCalls c.CheckInterval c.AdvancePeriod (tickClocks acts)
        (tickResults mc c.AdvancePeriod (invocations w0.trace) (tickClocks acts)) w1.loops ∧
      (∃ rest, events = Event.Starting c.CheckInterval c.AdvancePeriod :: rest ∧
        startings rest = []) ∧
      (∀ pre post now cutoff, events = pre ++ Event.PrecreateShardGroups now cutoff :: post →
        ∃ pre1, pre = Event.Starting c.CheckInterval c.AdvancePeriod :: pre1) ∧
      (∀ pre post err, events = pre ++ Event.PrecreateError err :: post →
        ∃ pre1 now cutoff, pre = pre1 ++ [Event.PrecreateShardGroups now cutoff] ∧
          mc.PrecreateShardGroups (invocations (w0.trace ++ pre1)) now cutoff = some err) ∧
      (∀ pre post, events = pre ++ Event.Closing :: post →
        post = [] ∧ w1.loops = 0 ∧
        ∃ acts1 acts2, acts = acts1 ++ Act.cancelled :: acts2 ∧ Act.closeSignal ∈ acts1 ∧
          tickClocks acts2 = []) ∧
      (w1.loops ≠ 0 → closings events = []) ∧
      (w1.s.wg = 0 → ∃ pre, events = pre ++ [Event.Closing]) ∧
      (w1.s.done = none → w1.s.wg = 0) := by
  obtain ⟨hi, c1, c2⟩ := Reachable_Inv c w0 hr
  have hrun1 : runActs (Open w0).1 acts = Except.ok w1 := by
    simpa [runActs, act] using hrun
  obtain ⟨_, _, _, _, i5, i6, i7, i8, i9⟩ := run_shape w0 d mc hi h0 hd hm acts hacts w1 hrun1
  rw [c1, c2] at i7
  have hlen := tickResults_length mc c.AdvancePeriod (tickClocks acts) (invocations w0.trace)
  obtain ⟨_, _, f3, f4⟩ := ticksCalls_facts c.AdvancePeriod (tickClocks acts) _ hlen
  have hnoClosing : Event.Closing ∉ ticksCalls c.AdvancePeriod (tickClocks acts)
      (tickResults mc c.AdvancePeriod (invocations w0.trace) (tickClocks acts)) := by
    intro hmem
    rcases mem_ticksCalls _ _ _ _ hmem with ⟨_, _, h⟩ | ⟨_, h⟩ <;> exact absurd h (by simp)
  refine ⟨_, i7, rfl, ?_, ?_, ?_, ?_, ?_, ?_, ?_⟩
  · refine ⟨_, rfl, ?_⟩
    by_cases hl : w1.loops = 0 <;> simp [startings_append, f4, hl, startings]
  · intro pre post now cutoff h
    cases pre with
    | nil => simp [runCalls] at h
    | cons e pre1 =>
      simp only [runCalls, List.cons_append, List.cons.injEq] at h
      exact ⟨pre1, by rw [h.1]⟩
  · intro pre post err h
    cases pre with
    | nil => simp [runCalls] at h
    | cons e p1 =>
      simp only [runCalls, List.cons_append, List.cons.injEq] at h
      obtain ⟨he, h⟩ := h
      have hticks : ∃ post1, ticksCalls c.AdvancePeriod (tickClocks acts)
          (tickResults mc c.AdvancePeriod (invocations w0.trace) (tickClocks acts)) =
          p1 ++ Event.PrecreateError err :: post1 := by
        by_cases hl : w1.loops = 0
        · simp only [hl, if_true] at h
          rcases split_before_last _ _ _ _ _ h with ⟨_, hab, _⟩ | ⟨post1, _, hx⟩
          · exact absurd hab (by simp)
          · exact ⟨post1, hx⟩
        · simp only [hl, if_false, List.append_nil] at h
          exact ⟨post, h⟩
      obtain ⟨post1, hx⟩ := hticks
      obtain ⟨q, now, cutoff, hq, hmc⟩ := ticksCalls_error_adjacent mc _ _ _ _ _ _ hx
      refine ⟨e :: q, now, cutoff, by simp [hq], ?_⟩
      rw [← he]
      simpa [invocations_append, invocations] using hmc
  · intro pre post h
    cases pre with
    | nil => simp [runCalls] at h
    | cons e p1 =>
      simp only [runCalls, List.cons_append, List.cons.injEq] at h
      obtain ⟨_, h⟩ := h
      by_cases hl : w1.loops = 0
      · simp only [hl, if_true] at h
        rcases split_before_last _ _ _ _ _ h with ⟨hp, _, _⟩ | ⟨post1, _, hx⟩
        · exact ⟨hp, hl, (i9 hl).2⟩
        · exact absurd (by rw [hx]; simp) hnoClosing
      · simp only [hl, if_false, List.append_nil] at h
        exact absurd (by rw [h]; simp) hnoClosing
  · intro hl
    simp [runCalls, closings, closings_append, f3, hl]
  · intro hwg
    have hl : w1.loops = 0 := by omega
    refine ⟨Event.Starting c.CheckInterval c.AdvancePeriod ::
      ticksCalls c.AdvancePeriod (tickClocks acts)
        (tickResults mc c.AdvancePeriod (invocations w0.trace) (tickClocks acts)), ?_⟩
    simp [runCalls, hl]
  · intro hdone
    rcases Nat.le_one_iff_eq_zero_or_eq_one.mp i6 with h | h
    · omega
    · obtain ⟨ch, k1, _⟩ := i8 h
      rw [hdone] at k1
      exact absurd k1 (by simp)

end precreator

namespace precreator

/-- The three steps `Close` is made of, taken one after the other on a Service
with an open signal, one live goroutine and a counter of one, end where `Close`
ends. -/
theorem Close_as_acts (w : System) (ch : Chan) (h : w.s.done = some ch)
    (hc : ch.closed = false) (hwg : w.s.wg = 1) (hl : w.loops = 1) :
    (Close w).map (fun p => p.1) =
      runActs w [Act.closeSignal, Act.cancelled, Act.closeReturn] := by
  rw [Close_running w ch h hc hwg hl]
  simp only [runActs, act, closeSignal, h, hc, runPrecreation, hl, doneBranch, hwg, Except.map]
  cases hd : w.s.Diagnostic <;>
    simp [closeReturn, System.record, sinkCalls, hd, hwg, hl]

/-- Ticks of a live goroutine with a sink and a collaborator can always be taken. -/
theorem runActs_ticks_ok (d : Diagnostic) (mc : MetaClient) (clocks : List Time) :
    ∀ w : System, w.loops ≠ 0 → w.s.Diagnostic = some d → w.s.MetaClient = some mc →
      ∃ w1 : System, runActs w (clocks.map Act.tick) = Except.ok w1 ∧
        w1.s = w.s ∧ w1.loops = w.loops := by
  induction clocks with
  | nil => intro w _ _ _; exact ⟨w, rfl, rfl, rfl⟩
  | cons c cs ih =>
    intro w hl hd hm
    obtain ⟨w1, h1, h2, h3⟩ := ih
      { w with
        trace := w.trace ++ tickCalls w.s.advancePeriod c
          (mc.PrecreateShardGroups (invocations w.trace) c.UTC
            (c.UTC.Add w.s.advancePeriod).UTC) } hl hd hm
    refine ⟨w1, ?_, h2, h3⟩
    simp only [List.map_cons, runActs, act, tick_with_sink w d mc c hl hd hm]
    exact h1

/-- A complete run exists for every choice of ticks before and after the closing
of the signal: it can be taken to the end, and ends Stopped. -/
theorem complete_run (w0 : System) (d : Diagnostic) (mc : MetaClient) (hi : Inv w0)
    (h0 : w0.s.done = none) (hd : w0.s.Diagnostic = some d) (hm : w0.s.MetaClient = some mc)
    (clocks1 clocks2 : List Time) :
    ∃ w1 : System,
      runActs w0 (Act.Open :: (clocks1.map Act.tick ++ Act.closeSignal ::
        (clocks2.map Act.tick ++ [Act.cancelled, Act.closeReturn]))) = Except.ok w1 ∧
      w1.s.done = none ∧ w1.loops = 0 ∧ w1.s.wg = 0 := by
  obtain ⟨hl, hwg⟩ := Inv_stopped w0 hi h0
  have hopen : runActs w0 (Act.Open :: (clocks1.map Act.tick ++ Act.closeSignal ::
      (clocks2.map Act.tick ++ [Act.cancelled, Act.closeReturn]))) =
      runActs (Open w0).1 (clocks1.map Act.tick ++ Act.closeSignal ::
        (clocks2.map Act.tick ++ [Act.cancelled, Act.closeReturn])) := by
    simp [runActs, act]
  rw [hopen, Open_stopped w0 h0, runActs_append]
  obtain ⟨wa, ha, sa, la⟩ := runActs_ticks_ok d mc clocks1
    { s := { w0.s with done := some ⟨w0.nextChan, false⟩, wg := w0.s.wg + 1 }
      loops := w0.loops + 1
      nextChan := w0.nextChan + 1
      trace := w0.trace ++
        sinkCalls w0.s.Diagnostic [Event.Starting w0.s.checkInterval w0.s.advancePeriod] }
    (by simp) hd hm
  simp only [ha]
  have hb : closeSignal wa =
      Except.ok { wa with s := { wa.s with done := some ⟨w0.nextChan, true⟩ } } := by
    simp [closeSignal, sa]
  simp only [runActs, act, hb]
  rw [runActs_append]
  obtain ⟨wb, hb1, sb, lb⟩ := runActs_ticks_ok d mc clocks2
    { wa with s := { wa.s with done := some ⟨w0.nextChan, true⟩ } }
    (by simp [la]) (by simp [sa, hd]) (by simp [sa, hm])
  simp only [hb1]
  have hcan : runPrecreation wb Branch.cancelled =
      Except.ok
        { s := { wb.s with wg := 0 }
          loops := 0
          nextChan := wb.nextChan
          trace := wb.trace ++ [Event.Closing] } := by
    simp [runPrecreation, doneBranch, System.record, sb, sa, lb, la, hl, hwg, hd]
  simp only [runActs, act, hcan]
  simp [closeReturn, sb, sa]

end precreator

namespace precreator

/-- C11 at a run with two ticks before the signal is closed, the second of
which fails, and one tick between the closing of the signal and the iteration
that receives from it. -/
theorem run_events_in_order_witness :
    ∃ w1 : System,
      runActs (stoppedExample (some ⟨1⟩) failsSecond)
        [Act.Open, Act.tick ⟨100, 0, Location.Local⟩, Act.tick ⟨200, 0, Location.Local⟩,
          Act.closeSignal, Act.tick ⟨300, 0, Location.Local⟩, Act.cancelled, Act.closeReturn] =
        Except.ok w1 ∧
      w1.trace =
        [Event.Starting Hour (24 * Hour),
          Event.PrecreateShardGroups ⟨100, 0, Location.UTC⟩ ⟨100 + 86400, 0, Location.UTC⟩,
          Event.PrecreateShardGroups ⟨200, 0, Location.UTC⟩ ⟨200 + 86400, 0, Location.UTC⟩,
          Event.PrecreateError ⟨"unavailable"⟩,
          Event.PrecreateShardGroups ⟨300, 0, Location.UTC⟩ ⟨300 + 86400, 0, Location.UTC⟩,
          Event.Closing] ∧
      w1.s.done = none ∧
      (∀ pre post, w1.trace = pre ++ Event.Closing :: post → post = []) := by
  have hrun : runActs (stoppedExample (some ⟨1⟩) failsSecond)
      [Act.Open, Act.tick ⟨100, 0, Location.Local⟩, Act.tick ⟨200, 0, Location.Local⟩,
        Act.closeSignal, Act.tick ⟨300, 0, Location.Local⟩, Act.cancelled, Act.closeReturn] =
      Except.ok _ := rfl
  obtain ⟨events, e1, _, _, _, _, e6, _⟩ :=
    run_events_in_order exampleConfig (stoppedExample (some ⟨1⟩) failsSecond) _ ⟨1⟩ failsSecond
      [Act.tick ⟨100, 0, Location.Local⟩, Act.tick ⟨200, 0, Location.Local⟩,
        Act.closeSignal, Act.tick ⟨300, 0, Location.Local⟩, Act.cancelled, Act.closeReturn]
      (Reachable_stoppedExample _ _) rfl rfl rfl (by decide) hrun
  have ht : (stoppedExample (some ⟨1⟩) failsSecond).trace = [] := rfl
  rw [ht, List.nil_append] at e1
  refine ⟨_, hrun, rfl, rfl, ?_⟩
  intro pre post h
  exact (e6 pre post (e1 ▸ h)).1

end precreator
